import Mathlib

/-!
Shallow embedding of `src/huha.js` (the huha usability-instrumentation
library) and proofs of the specification claims about it.

Modelling conventions:
* JS objects become Lean structures; object mutation becomes explicit
  state passing (`HuhaTask → HuhaTask`, or list-of-tasks updates for
  operations that follow object references).
* Task objects are held in a `List HuhaTask` (the registry's `tasks`
  array); a task's `parentTask` reference is the index of the parent in
  that list.  A parent object exists before any of its children, so on
  every store built through the registry a parent's index is strictly
  below its child's; the recursive operations guard on `j < i` to make
  that termination argument explicit (on well-formed stores the guard
  never changes behaviour).
* Calls to analytics backends (`gtag`, `ga`, `Intercom`, `analytics`)
  become values of `SinkCall` collected in an emitted list; the ambient
  `Env` records which backend globals are defined (`typeof x !==
  'undefined'` tests).
* Timestamps (`new Date().getTime()`) become explicit `now : Int`
  arguments.
* The module-level mutable `DEFAULTS` object becomes threaded
  `Defaults` state: `Object.assign(DEFAULTS, options)` both computes the
  merged options and replaces the state.
-/

namespace HuhaSpec

/-- The three task status strings `IN_PROGRESS`, `COMPLETED`, `ABANDONED`. -/
inductive Status where
  | inProgress
  | completed
  | abandoned
deriving DecidableEq, Repr

/-- The status string actually stored/sent by the JS code. -/
def Status.str : Status → String
  | .inProgress => "In progress"
  | .completed => "Completed"
  | .abandoned => "Abandoned"

/-- The resolved configuration flags (the shape of the `DEFAULTS` object). -/
structure Defaults where
  trackOnGoogleAnalytics : Bool
  trackOnIntercom : Bool
  trackOnSegment : Bool
deriving DecidableEq, Repr

/-- The module-level `DEFAULTS` initial value. -/
def DEFAULTS : Defaults :=
  { trackOnGoogleAnalytics := false
    trackOnIntercom := false
    trackOnSegment := true }

/-- A caller-supplied `options` object: each flag may be present or absent
(`none` models an absent key; an entirely absent/`undefined` options object is
all-`none`). -/
structure Options where
  trackOnGoogleAnalytics : Option Bool
  trackOnIntercom : Option Bool
  trackOnSegment : Option Bool
deriving DecidableEq, Repr

/-- `Object.assign(DEFAULTS, options)`: the merged result, which the JS code
also stores back into the module-level `DEFAULTS` object (the first argument
of `Object.assign` is mutated). -/
def mergeDefaults (d : Defaults) (o : Options) : Defaults :=
  { trackOnGoogleAnalytics := o.trackOnGoogleAnalytics.getD d.trackOnGoogleAnalytics
    trackOnIntercom := o.trackOnIntercom.getD d.trackOnIntercom
    trackOnSegment := o.trackOnSegment.getD d.trackOnSegment }

/-- The fields of a `HuhaTask` object.  `endTime` is the JS `end` field
(`null` until the terminal transition, hence `Option`); `parentTask` is the
index of the parent task in the surrounding task store. -/
structure HuhaTask where
  name : String
  status : Status
  effort : Nat
  errors : Nat
  start : Int
  endTime : Option Int
  trackOnGoogleAnalytics : Bool
  trackOnIntercom : Bool
  trackOnSegment : Bool
  parentTask : Option Nat
deriving DecidableEq, Repr

/-- The `HuhaTask` constructor.  Takes the current `DEFAULTS` state and
returns the new task together with the mutated `DEFAULTS`
(`Object.assign(DEFAULTS, options)` writes the merge into `DEFAULTS`). -/
def newHuhaTask (d : Defaults) (name : String) (parentTask : Option Nat)
    (options : Options) (now : Int) : HuhaTask × Defaults :=
  let mergedOptions := mergeDefaults d options
  ({ name := name
     status := .inProgress
     effort := 0
     errors := 0
     start := now
     endTime := none
     trackOnGoogleAnalytics := mergedOptions.trackOnGoogleAnalytics
     trackOnIntercom := mergedOptions.trackOnIntercom
     trackOnSegment := mergedOptions.trackOnSegment
     parentTask := parentTask }, mergedOptions)

/-- The `time` getter: `if (this.end)` is a JS truthiness test, so an `end`
equal to `0` (as well as a null `end`) leaves `time` at `0`. -/
def HuhaTask.time (t : HuhaTask) : Int :=
  match t.endTime with
  | none => 0
  | some e => if e = 0 then 0 else e - t.start

/-- Which analytics backend globals are defined in the page
(`typeof gtag !== 'undefined'` and friends). -/
structure Env where
  gtagDefined : Bool
  gaDefined : Bool
  intercomDefined : Bool
  analyticsDefined : Bool
deriving DecidableEq, Repr

/-- One call into an analytics backend, with the arguments the JS code
passes at the corresponding call site. -/
inductive SinkCall where
  /-- `gtag('event', 'timing_complete', {event_category, event_label, value, name})` -/
  | gtagTimingComplete (category label : String) (value : Int) (name : String)
  /-- `gtag('event', action, {event_category, event_label, value})` with an integer value -/
  | gtagEvent (action category label : String) (value : Int)
  /-- `ga('send', 'timing', category, variable, value, label)` -/
  | gaTiming (category variableName : String) (value : Int) (label : String)
  /-- `ga('send', 'event', category, action, label, value)` with an integer value -/
  | gaEvent (category action label : String) (value : Int)
  /-- `gtag('event', action, {event_category, event_label, value})` with a string value -/
  | gtagEventStr (action category label value : String)
  /-- `ga('send', 'event', category, action, label, value)` with a string value -/
  | gaEventStr (category action label value : String)
  /-- `Intercom('trackEvent', name, {errors, effort, time, status})` -/
  | intercomTrackEvent (name : String) (errors effort : Nat) (time : Int) (status : String)
  /-- `analytics.track(name, {category, action, label, value, errors, effort, time, result, started})` for a task -/
  | segmentTrackTask (name category action label : String) (value : Nat)
      (errors effort : Nat) (time : Int) (result : String) (started : Int)
  /-- `analytics.track(name, {category, label, action, value, eventGroup})` for an event -/
  | segmentTrackEvent (name category label action value eventGroup : String)
deriving DecidableEq, Repr

/-- The backend a `SinkCall` belongs to. -/
inductive Backend where
  | googleAnalytics
  | intercom
  | segment
deriving DecidableEq, Repr

/-- Classifies each call by backend. -/
def SinkCall.backend : SinkCall → Backend
  | .gtagTimingComplete .. => .googleAnalytics
  | .gtagEvent .. => .googleAnalytics
  | .gaTiming .. => .googleAnalytics
  | .gaEvent .. => .googleAnalytics
  | .gtagEventStr .. => .googleAnalytics
  | .gaEventStr .. => .googleAnalytics
  | .intercomTrackEvent .. => .intercom
  | .segmentTrackTask .. => .segment
  | .segmentTrackEvent .. => .segment

/-- `HuhaTask.sendToGoogleAnalytics`: prefers `gtag`, falls back to `ga`,
silently does nothing when neither global is defined. -/
def HuhaTask.sendToGoogleAnalytics (env : Env) (t : HuhaTask) : List SinkCall :=
  if env.gtagDefined then
    [ .gtagTimingComplete t.name "Time on task" t.time t.status.str
    , .gtagEvent t.status.str t.name "Error" (t.errors : Int)
    , .gtagEvent t.status.str t.name "Effort" (t.effort : Int) ]
  else if env.gaDefined then
    [ .gaTiming t.name t.status.str t.time "Time on task"
    , .gaEvent t.name t.status.str "Error" (t.errors : Int)
    , .gaEvent t.name t.status.str "Effort" (t.effort : Int) ]
  else []

/-- `HuhaTask.sendToIntercom`: silently does nothing when the `Intercom`
global is undefined. -/
def HuhaTask.sendToIntercom (env : Env) (t : HuhaTask) : List SinkCall :=
  if env.intercomDefined then
    [ .intercomTrackEvent t.name t.errors t.effort t.time t.status.str ]
  else []

/-- `HuhaTask.sendToSegment`: silently does nothing when the `analytics`
global is undefined. -/
def HuhaTask.sendToSegment (env : Env) (t : HuhaTask) : List SinkCall :=
  if env.analyticsDefined then
    [ .segmentTrackTask t.name t.name t.status.str "Task" 1
        t.errors t.effort t.time t.status.str t.start ]
  else []

/-- `HuhaTask.track`: dispatches to the enabled sinks in the fixed order
Google Analytics, Intercom, Segment. -/
def HuhaTask.track (env : Env) (t : HuhaTask) : List SinkCall :=
  (if t.trackOnGoogleAnalytics then t.sendToGoogleAnalytics env else [])
    ++ (if t.trackOnIntercom then t.sendToIntercom env else [])
    ++ (if t.trackOnSegment then t.sendToSegment env else [])

/-- `HuhaTask.finish(status)`: guarded by `status === IN_PROGRESS`; on the
first terminal transition sets `end` and `status` and then invokes `track`.
The second component is `some calls` when the guard passed (i.e. `track` was
invoked — sink dispatch fired, emitting `calls`), `none` when the call was a
no-op. -/
def HuhaTask.finish (now : Int) (env : Env) (st : Status) (t : HuhaTask) :
    HuhaTask × Option (List SinkCall) :=
  if t.status = .inProgress then
    let t2 := { t with endTime := some now, status := st }
    (t2, some (t2.track env))
  else
    (t, none)

/-- `HuhaTask.complete()`. -/
def HuhaTask.complete (now : Int) (env : Env) (t : HuhaTask) :
    HuhaTask × Option (List SinkCall) :=
  t.finish now env .completed

/-- `HuhaTask.abandon()`. -/
def HuhaTask.abandon (now : Int) (env : Env) (t : HuhaTask) :
    HuhaTask × Option (List SinkCall) :=
  t.finish now env .abandoned

/-- The shared recursion of `HuhaTask.addInteraction` / `addError`: apply the
field update `f` to task `i` and recurse on its parent reference.  The
`j < i` guard is the termination measure; it is vacuous on well-formed stores
(a parent object is constructed, hence stored, before its child). -/
def propagateAt (f : HuhaTask → HuhaTask) : List HuhaTask → Nat → List HuhaTask
  | ts, i =>
    match ts[i]? with
    | none => ts
    | some t =>
      let ts2 := ts.set i (f t)
      match t.parentTask with
      | none => ts2
      | some j => if _ : j < i then propagateAt f ts2 j else ts2
termination_by _ i => i

/-- `HuhaTask.addInteraction()` on the task at index `i`: `effort += 1`, then
the same on the parent, unconditionally. -/
def addInteractionAt (ts : List HuhaTask) (i : Nat) : List HuhaTask :=
  propagateAt (fun t => { t with effort := t.effort + 1 }) ts i

/-- `HuhaTask.addError()` on the task at index `i`: `errors += 1`, then the
same on the parent, unconditionally. -/
def addErrorAt (ts : List HuhaTask) (i : Nat) : List HuhaTask :=
  propagateAt (fun t => { t with errors := t.errors + 1 }) ts i

/-- The parent chain of the task at index `i`: the task itself followed by
its ancestors (with the same `j < i` reference guard as `propagateAt`). -/
def chainFrom : List HuhaTask → Nat → List Nat
  | ts, i =>
    match ts[i]? with
    | none => []
    | some t =>
      i :: (match t.parentTask with
        | none => []
        | some j => if _ : j < i then chainFrom ts j else [])
termination_by _ i => i

/-- Modelled from the spec: `uuidv1` comes from the external `uuid`
dependency (not part of this repository); the spec requires only "a
process-unique random token".  Modelled as an injective supply: the state is
a counter, and the token generated at counter `n` is a non-empty string
determined injectively by `n` (distinct counters give distinct tokens). -/
def uuidv1 (g : Nat) : String × Nat :=
  (String.mk (List.replicate (g + 1) 'u'), g + 1)

/-- The fields of a `HuhaEvent` object.  `sectionName` is the JS `section`
field.  The `task` association is kept as an opaque string handle (the JS
code stores it and never reads it). -/
structure HuhaEvent where
  name : String
  object : String
  action : String
  sectionName : String
  value : String
  task : Option String
  eventGroup : String
  trackOnGoogleAnalytics : Bool
  trackOnSegment : Bool
deriving DecidableEq, Repr

/-- The `HuhaEvent` constructor.  Threads the `DEFAULTS` state (mutated by
`Object.assign(DEFAULTS, options || {})`) and the uuid counter:
`eventGroup || uuidv1()` consumes a fresh token exactly when `eventGroup` is
absent or the empty string (both are falsy in JS).  Note the constructor
reads only the Google Analytics and Segment flags from the merged options. -/
def newHuhaEvent (d : Defaults) (g : Nat) (name object action sectionName value : String)
    (task : Option String) (eventGroup : Option String) (options : Options) :
    HuhaEvent × Defaults × Nat :=
  let mergedOptions := mergeDefaults d options
  let (group, g2) :=
    match eventGroup with
    | some s => if s = "" then uuidv1 g else (s, g)
    | none => uuidv1 g
  ({ name := name
     object := object
     action := action
     sectionName := sectionName
     value := value
     task := task
     eventGroup := group
     trackOnGoogleAnalytics := mergedOptions.trackOnGoogleAnalytics
     trackOnSegment := mergedOptions.trackOnSegment }, mergedOptions, g2)

/-- `HuhaEvent.sendToGoogleAnalytics`: prefers `gtag`, falls back to `ga`,
silently does nothing when neither global is defined. -/
def HuhaEvent.sendToGoogleAnalytics (env : Env) (e : HuhaEvent) : List SinkCall :=
  if env.gtagDefined then
    [ .gtagEventStr e.action e.sectionName e.object e.value ]
  else if env.gaDefined then
    [ .gaEventStr e.sectionName e.action e.object e.value ]
  else []

/-- `HuhaEvent.sendToSegment`: silently does nothing when the `analytics`
global is undefined. -/
def HuhaEvent.sendToSegment (env : Env) (e : HuhaEvent) : List SinkCall :=
  if env.analyticsDefined then
    [ .segmentTrackEvent e.name e.sectionName e.object e.action e.value e.eventGroup ]
  else []

/-- `HuhaEvent.track`: consults only the Google Analytics and Segment flags
(there is no Intercom branch for events). -/
def HuhaEvent.track (env : Env) (e : HuhaEvent) : List SinkCall :=
  (if e.trackOnGoogleAnalytics then e.sendToGoogleAnalytics env else [])
    ++ (if e.trackOnSegment then e.sendToSegment env else [])

/-- The `Huha` registry object: the task and event histories and the three
sink flags resolved at construction. -/
structure Huha where
  tasks : List HuhaTask
  events : List HuhaEvent
  trackOnGoogleAnalytics : Bool
  trackOnIntercom : Bool
  trackOnSegment : Bool
deriving DecidableEq, Repr

/-- The `Huha` constructor (the DOM wiring of `setUpEvents` is an external
adapter, excluded from the core; its effects enter through `registerEvent`
and `abandonInProgressTasks`). -/
def newHuha (d : Defaults) (options : Options) : Huha × Defaults :=
  let mergedOptions := mergeDefaults d options
  ({ tasks := []
     events := []
     trackOnGoogleAnalytics := mergedOptions.trackOnGoogleAnalytics
     trackOnIntercom := mergedOptions.trackOnIntercom
     trackOnSegment := mergedOptions.trackOnSegment }, mergedOptions)

/-- `tasks.find(task => task.name === name && task.status === IN_PROGRESS)`,
returning the index of the first match (the index is the object identity in
this embedding). -/
def findInProgress (name : String) : List HuhaTask → Nat → Option Nat
  | [], _ => none
  | t :: ts, i =>
    if t.name = name ∧ t.status = .inProgress then some i
    else findInProgress name ts (i + 1)

/-- `Huha.getTask(name)`. -/
def Huha.getTask (h : Huha) (name : String) : Option Nat :=
  findInProgress name h.tasks 0

/-- `finish` applied to the task stored at index `i` (mutation of a task
object held in the registry's array).  Second component as in
`HuhaTask.finish`: `some calls` iff the terminal transition fired. -/
def finishAt (ts : List HuhaTask) (i : Nat) (st : Status) (now : Int) (env : Env) :
    List HuhaTask × Option (List SinkCall) :=
  match ts[i]? with
  | none => (ts, none)
  | some t =>
    let (t2, c) := t.finish now env st
    (ts.set i t2, c)

/-- `Huha.createTask(name, parentTask)`: abandon the existing in-progress
task of the same name (if any), then construct the new task with the
registry's three flags passed explicitly as options, and append it.
Returns the new registry, the mutated `DEFAULTS`, the index of the new task
and the sink calls emitted by the forced abandonment. -/
def Huha.createTask (h : Huha) (d : Defaults) (name : String) (parentTask : Option Nat)
    (now : Int) (env : Env) : Huha × Defaults × Nat × List SinkCall :=
  let (ts1, c1) :=
    match h.getTask name with
    | some i => finishAt h.tasks i .abandoned now env
    | none => (h.tasks, none)
  let (huhaTask, d2) := newHuhaTask d name parentTask
    { trackOnGoogleAnalytics := some h.trackOnGoogleAnalytics
      trackOnIntercom := some h.trackOnIntercom
      trackOnSegment := some h.trackOnSegment } now
  ({ h with tasks := ts1 ++ [huhaTask] }, d2, ts1.length, c1.getD [])

/-- `Huha.createEvent(...)`: construct the event with the registry's Google
Analytics and Segment flags, track it immediately, append it. -/
def Huha.createEvent (h : Huha) (d : Defaults) (g : Nat)
    (name object action sectionName value : String) (task : Option String)
    (eventGroup : Option String) (env : Env) : Huha × Defaults × Nat × List SinkCall :=
  let (huhaEvent, d2, g2) := newHuhaEvent d g name object action sectionName value
    task eventGroup
    { trackOnGoogleAnalytics := some h.trackOnGoogleAnalytics
      trackOnIntercom := none
      trackOnSegment := some h.trackOnSegment }
  let calls := huhaEvent.track env
  ({ h with events := h.events ++ [huhaEvent] }, d2, g2, calls)

/-- The `data-huha-*` attributes of a DOM element, as read by
`registerEvent` (`dataset.huhaTask`, `dataset.huhaTrigger`,
`dataset.huhaEvent`). -/
structure Element where
  huhaTask : String
  huhaTrigger : String
  huhaEvent : String
deriving DecidableEq, Repr

/-- `Huha.registerEvent(capturedEvent, element)`: acts only when the
captured event equals the element's declared trigger; then dispatches on the
declared event type.  Returns the updated registry, `DEFAULTS` state and the
emitted sink calls. -/
def Huha.registerEvent (h : Huha) (d : Defaults) (capturedEvent : String)
    (element : Element) (now : Int) (env : Env) : Huha × Defaults × List SinkCall :=
  let taskName := element.huhaTask
  let actionTrigger := element.huhaTrigger
  let eventType := element.huhaEvent
  if capturedEvent = actionTrigger then
    if eventType = "start" then
      let (h2, d2, _, calls) := h.createTask d taskName none now env
      (h2, d2, calls)
    else
      match h.getTask taskName with
      | some i =>
        if eventType = "complete" then
          let (ts2, c) := finishAt h.tasks i .completed now env
          ({ h with tasks := ts2 }, d, c.getD [])
        else if eventType = "abandon" then
          let (ts2, c) := finishAt h.tasks i .abandoned now env
          ({ h with tasks := ts2 }, d, c.getD [])
        else if eventType = "interaction" then
          ({ h with tasks := addInteractionAt h.tasks i }, d, [])
        else if eventType = "error" then
          ({ h with tasks := addErrorAt h.tasks i }, d, [])
        else (h, d, [])
      | none => (h, d, [])
  else (h, d, [])

/-- The `forEach(task => task.abandon())` part of `abandonInProgressTasks`,
over a list of task indices.  Also counts how many of the abandon calls
actually fired their terminal transition (dispatched to sinks). -/
def abandonSweep (env : Env) (now : Int) : List HuhaTask → List Nat →
    List HuhaTask × List SinkCall × Nat
  | ts, [] => (ts, [], 0)
  | ts, i :: rest =>
    let (ts2, c) := finishAt ts i .abandoned now env
    let (ts3, calls, n) := abandonSweep env now ts2 rest
    (ts3, c.getD [] ++ calls, (if c.isSome then 1 else 0) + n)

/-- The indices of the in-progress tasks, i.e.
`tasks.filter(task => task.status === IN_PROGRESS)` with tasks identified by
their index. -/
def pendingIdx (ts : List HuhaTask) : List Nat :=
  (List.range ts.length).filter (fun i =>
    match ts[i]? with
    | some t => t.status = .inProgress
    | none => false)

/-- `Huha.abandonInProgressTasks()`: filter the in-progress tasks, then
abandon each.  Returns the updated registry, all emitted sink calls, and the
number of terminal transitions that fired. -/
def Huha.abandonInProgressTasks (h : Huha) (now : Int) (env : Env) :
    Huha × List SinkCall × Nat :=
  let (ts2, calls, n) := abandonSweep env now h.tasks (pendingIdx h.tasks)
  ({ h with tasks := ts2 }, calls, n)

/-- A sequence of `complete()` / `abandon()` calls on one task object
(`true` selects `complete`, `false` selects `abandon`; the `Int` is the
timestamp of the call).  Returns the final task, all emitted sink calls, and
how many of the calls fired their terminal transition (invoked `track`). -/
def runFinishes (env : Env) : HuhaTask → List (Bool × Int) →
    HuhaTask × List SinkCall × Nat
  | t, [] => (t, [], 0)
  | t, (b, now) :: ops =>
    let (t2, c) := if b then t.complete now env else t.abandon now env
    let (t3, calls, n) := runFinishes env t2 ops
    (t3, c.getD [] ++ calls, (if c.isSome then 1 else 0) + n)

/-- A counter operation on a task object. -/
inductive TaskOp where
  | interaction
  | error
deriving DecidableEq, Repr

/-- A sequence of `addInteraction()` / `addError()` calls, each applied to
the task at the given index of the store. -/
def applyOps (ts : List HuhaTask) (ops : List (TaskOp × Nat)) : List HuhaTask :=
  ops.foldl
    (fun ts p =>
      match p.1 with
      | .interaction => addInteractionAt ts p.2
      | .error => addErrorAt ts p.2) ts

/-- "`t` is an in-progress task named `name`" — the predicate of
`Huha.getTask`'s `find`. -/
def inProgressNamed (name : String) (t : HuhaTask) : Prop :=
  t.name = name ∧ t.status = .inProgress

instance (name : String) (t : HuhaTask) : Decidable (inProgressNamed name t) :=
  inferInstanceAs (Decidable (_ ∧ _))

/-- The registry invariant: at most one element of `tasks` is an in-progress
task with the given name. -/
def atMostOneInProgress (h : Huha) (name : String) : Prop :=
  ∀ (i j : Nat) (ti tj : HuhaTask), h.tasks[i]? = some ti → h.tasks[j]? = some tj →
    inProgressNamed name ti → inProgressNamed name tj → i = j

/-- The argument bundle of one `HuhaEvent` construction. -/
structure EventArgs where
  name : String
  object : String
  action : String
  sectionName : String
  value : String
  task : Option String
  eventGroup : Option String
  options : Options
deriving DecidableEq, Repr

/-- Whether a construction with these arguments consumes a generated token:
`eventGroup || uuidv1()` calls `uuidv1` exactly when `eventGroup` is absent
or the empty string (both falsy). -/
def consumesToken (a : EventArgs) : Bool :=
  match a.eventGroup with
  | none => true
  | some s => s = ""

/-- A sequence of `HuhaEvent` constructions threading the `DEFAULTS` and
uuid-counter state. -/
def mkEventSeq (d : Defaults) (g : Nat) : List EventArgs →
    List HuhaEvent × Defaults × Nat
  | [] => ([], d, g)
  | a :: rest =>
    let (e, d2, g2) := newHuhaEvent d g a.name a.object a.action a.sectionName
      a.value a.task a.eventGroup a.options
    let (es, d3, g3) := mkEventSeq d2 g2 rest
    (e :: es, d3, g3)

/-- Concrete fixture: a (terminal) parent task at index 0 of the fixture
store. -/
def sampleParent : HuhaTask :=
  { name := "p", status := .completed, effort := 0, errors := 0, start := 0
    endTime := some 5, trackOnGoogleAnalytics := false, trackOnIntercom := false
    trackOnSegment := true, parentTask := none }

/-- Concrete fixture: a child of `sampleParent`, at index 1. -/
def sampleChild : HuhaTask :=
  { name := "c", status := .inProgress, effort := 0, errors := 0, start := 1
    endTime := none, trackOnGoogleAnalytics := false, trackOnIntercom := false
    trackOnSegment := true, parentTask := some 0 }

/-- Concrete fixture: a child of `sampleChild`, at index 2. -/
def sampleGrandchild : HuhaTask :=
  { name := "g", status := .inProgress, effort := 0, errors := 0, start := 2
    endTime := none, trackOnGoogleAnalytics := false, trackOnIntercom := false
    trackOnSegment := true, parentTask := some 1 }

/-- Concrete fixture: a freshly constructed registry with the default flags
and no history. -/
def emptyRegistry : Huha :=
  { tasks := [], events := [], trackOnGoogleAnalytics := false
    trackOnIntercom := false, trackOnSegment := true }

/-! ## Lemmas and claim theorems -/

/-- A `complete()` or `abandon()` call on a task that is no longer in
progress is a complete no-op: same task, no calls, no dispatch. -/
theorem runFinishes_of_terminal (env : Env) (t : HuhaTask)
    (ops : List (Bool × Int)) (h : t.status ≠ .inProgress) :
    runFinishes env t ops = (t, [], 0) := by
  induction ops with
  | nil => rfl
  | cons op ops ih =>
    obtain ⟨b, now⟩ := op
    cases b <;>
      simp [runFinishes, HuhaTask.complete, HuhaTask.abandon, HuhaTask.finish,
        if_neg h, ih]

/-- C1: once a task's status is no longer `InProgress`, any further
`complete()` / `abandon()` calls (in any order, any number of times) leave
the task unchanged — same `effort`, `errors`, `status`, `end` — emit no sink
calls and fire no dispatch; and starting from `InProgress` (the state every
task is created in), any non-empty such sequence fires the terminal sink
dispatch exactly once over the task's whole lifetime. -/
theorem claim_C1 (env : Env) (t : HuhaTask) (ops : List (Bool × Int)) :
    (t.status ≠ .inProgress → runFinishes env t ops = (t, [], 0)) ∧
    (t.status = .inProgress →
      (runFinishes env t ops).2.2 = if ops.isEmpty then 0 else 1) := by
  constructor
  · exact fun h => runFinishes_of_terminal env t ops h
  · intro hip
    cases ops with
    | nil => rfl
    | cons op ops =>
      obtain ⟨b, now⟩ := op
      cases b
      · have h2 : runFinishes env
            { t with endTime := some now, status := Status.abandoned } ops =
            ({ t with endTime := some now, status := Status.abandoned }, [], 0) :=
          runFinishes_of_terminal env _ ops (by simp)
        simp [runFinishes, HuhaTask.abandon, HuhaTask.finish, hip, h2]
      · have h2 : runFinishes env
            { t with endTime := some now, status := Status.completed } ops =
            ({ t with endTime := some now, status := Status.completed }, [], 0) :=
          runFinishes_of_terminal env _ ops (by simp)
        simp [runFinishes, HuhaTask.complete, HuhaTask.finish, hip, h2]

/-- Witness for C1 at concrete inputs: a completed task is untouched by a
further `abandon(); complete()` pair, and a fresh in-progress task fires
dispatch exactly once over `complete(); complete(); abandon()`. -/
theorem claim_C1_witness :
    runFinishes ⟨true, true, true, true⟩
      { name := "T", status := .completed, effort := 3, errors := 1, start := 5
        endTime := some 9, trackOnGoogleAnalytics := true, trackOnIntercom := true
        trackOnSegment := true, parentTask := none }
      [(false, 11), (true, 12)] =
      ({ name := "T", status := .completed, effort := 3, errors := 1, start := 5
         endTime := some 9, trackOnGoogleAnalytics := true, trackOnIntercom := true
         trackOnSegment := true, parentTask := none }, [], 0) ∧
    (runFinishes ⟨true, true, true, true⟩
      { name := "T", status := .inProgress, effort := 0, errors := 0, start := 5
        endTime := none, trackOnGoogleAnalytics := true, trackOnIntercom := true
        trackOnSegment := true, parentTask := none }
      [(true, 11), (true, 12), (false, 13)]).2.2 = 1 :=
  ⟨(claim_C1 ⟨true, true, true, true⟩
      { name := "T", status := .completed, effort := 3, errors := 1, start := 5
        endTime := some 9, trackOnGoogleAnalytics := true, trackOnIntercom := true
        trackOnSegment := true, parentTask := none }
      [(false, 11), (true, 12)]).1 (by decide),
   by
    have h := (claim_C1 ⟨true, true, true, true⟩
      { name := "T", status := .inProgress, effort := 0, errors := 0, start := 5
        endTime := none, trackOnGoogleAnalytics := true, trackOnIntercom := true
        trackOnSegment := true, parentTask := none }
      [(true, 11), (true, 12), (false, 13)]).2 (by decide)
    simpa using h⟩

/-- C4 counterexample: the claim "`time` equals `end - start` whenever the
task underwent a terminal transition, for any start/end timestamp values" is
false at a task started at `1` and completed at timestamp `0`: `end` is set
to `0`, which is falsy in JS (`if (this.end)`), so `time` is `0`, not
`end - start = -1`. -/
theorem claim_C4_counterexample :
    (((newHuhaTask DEFAULTS "T" none ⟨none, none, none⟩ 1).1.complete 0
        ⟨false, false, false, false⟩).1.endTime = some 0) ∧
    (((newHuhaTask DEFAULTS "T" none ⟨none, none, none⟩ 1).1.complete 0
        ⟨false, false, false, false⟩).1.start = 1) ∧
    (((newHuhaTask DEFAULTS "T" none ⟨none, none, none⟩ 1).1.complete 0
        ⟨false, false, false, false⟩).1.time = 0) ∧
    ((0 : Int) - 1 ≠ 0) := by
  decide

/-- C4 (amended): `time` equals `0` for a task whose `end` is unset, and
equals `end - start` otherwise — except that an `end` equal to `0` is falsy
in JS, so `time` is also `0` in that case. -/
theorem claim_C4 (t : HuhaTask) :
    (t.endTime = none → t.time = 0) ∧
    (t.endTime = some 0 → t.time = 0) ∧
    (∀ e : Int, t.endTime = some e → e ≠ 0 → t.time = e - t.start) := by
  refine ⟨fun h => by simp [HuhaTask.time, h], fun h => by simp [HuhaTask.time, h],
    fun e h he => by simp [HuhaTask.time, h, he]⟩

/-- Witness for C4 at concrete inputs: a never-finished task, a task with
`end = 0`, and a task with `end = 7`, `start = 2`. -/
theorem claim_C4_witness :
    ({ name := "a", status := .inProgress, effort := 0, errors := 0, start := 2
       endTime := none, trackOnGoogleAnalytics := false, trackOnIntercom := false
       trackOnSegment := true, parentTask := none } : HuhaTask).time = 0 ∧
    ({ name := "b", status := .completed, effort := 0, errors := 0, start := 2
       endTime := some 0, trackOnGoogleAnalytics := false, trackOnIntercom := false
       trackOnSegment := true, parentTask := none } : HuhaTask).time = 0 ∧
    ({ name := "c", status := .completed, effort := 0, errors := 0, start := 2
       endTime := some 7, trackOnGoogleAnalytics := false, trackOnIntercom := false
       trackOnSegment := true, parentTask := none } : HuhaTask).time = 7 - 2 :=
  ⟨(claim_C4 _).1 rfl, (claim_C4 _).2.1 rfl, (claim_C4 _).2.2 7 rfl (by decide)⟩

/-- Every call emitted by the task's Google Analytics forwarder targets the
Google Analytics backend. -/
theorem backend_of_sendToGoogleAnalytics (env : Env) (t : HuhaTask) :
    ∀ c ∈ t.sendToGoogleAnalytics env, c.backend = .googleAnalytics := by
  unfold HuhaTask.sendToGoogleAnalytics
  split_ifs <;> simp [SinkCall.backend]

/-- Every call emitted by the task's Intercom forwarder targets Intercom. -/
theorem backend_of_sendToIntercom (env : Env) (t : HuhaTask) :
    ∀ c ∈ t.sendToIntercom env, c.backend = .intercom := by
  unfold HuhaTask.sendToIntercom
  split_ifs <;> simp [SinkCall.backend]

/-- Every call emitted by the task's Segment forwarder targets Segment. -/
theorem backend_of_sendToSegment (env : Env) (t : HuhaTask) :
    ∀ c ∈ t.sendToSegment env, c.backend = .segment := by
  unfold HuhaTask.sendToSegment
  split_ifs <;> simp [SinkCall.backend]

/-- The Google Analytics forwarder only reads whether `gtag`/`ga` are
defined. -/
theorem sendToGoogleAnalytics_env (env env2 : Env) (t : HuhaTask)
    (h1 : env.gtagDefined = env2.gtagDefined) (h2 : env.gaDefined = env2.gaDefined) :
    t.sendToGoogleAnalytics env = t.sendToGoogleAnalytics env2 := by
  unfold HuhaTask.sendToGoogleAnalytics
  rw [h1, h2]

/-- The Segment forwarder only reads whether `analytics` is defined. -/
theorem sendToSegment_env (env env2 : Env) (t : HuhaTask)
    (h : env.analyticsDefined = env2.analyticsDefined) :
    t.sendToSegment env = t.sendToSegment env2 := by
  unfold HuhaTask.sendToSegment
  rw [h]

/-- The Intercom forwarder only reads whether `Intercom` is defined. -/
theorem sendToIntercom_env (env env2 : Env) (t : HuhaTask)
    (h : env.intercomDefined = env2.intercomDefined) :
    t.sendToIntercom env = t.sendToIntercom env2 := by
  unfold HuhaTask.sendToIntercom
  rw [h]

/-- C7: on a task's first terminal transition (status still `InProgress`)
the status and `end` are set first, dispatch fires once with the sink
forwarders consulted in the fixed order Google Analytics, Intercom, Segment,
each enabled forwarder contributing its calls computed from the updated
task; the transition itself does not depend on backend availability, and an
absent backend removes exactly that backend's calls (the other sinks'
contribution is literally unchanged). -/
theorem claim_C7 (t : HuhaTask) (st : Status) (now : Int) (env : Env)
    (hip : t.status = .inProgress) :
    ((t.finish now env st).1 = { t with status := st, endTime := some now }) ∧
    ((t.finish now env st).2 =
      some (HuhaTask.track env { t with status := st, endTime := some now })) ∧
    (HuhaTask.track env { t with status := st, endTime := some now } =
      (if t.trackOnGoogleAnalytics then
        HuhaTask.sendToGoogleAnalytics env { t with status := st, endTime := some now }
       else []) ++
      (if t.trackOnIntercom then
        HuhaTask.sendToIntercom env { t with status := st, endTime := some now }
       else []) ++
      (if t.trackOnSegment then
        HuhaTask.sendToSegment env { t with status := st, endTime := some now }
       else [])) ∧
    (∀ env2 : Env, (t.finish now env2 st).1 = (t.finish now env st).1) ∧
    ((t.finish now { env with intercomDefined := false } st).2.getD [] =
      ((t.finish now env st).2.getD []).filter
        (fun c => decide (c.backend ≠ .intercom))) ∧
    ((t.finish now { env with analyticsDefined := false } st).2.getD [] =
      ((t.finish now env st).2.getD []).filter
        (fun c => decide (c.backend ≠ .segment))) ∧
    ((t.finish now { env with gtagDefined := false, gaDefined := false } st).2.getD [] =
      ((t.finish now env st).2.getD []).filter
        (fun c => decide (c.backend ≠ .googleAnalytics))) := by
  have hfin : ∀ env2 : Env, t.finish now env2 st =
      ({ t with status := st, endTime := some now },
        some (HuhaTask.track env2 { t with status := st, endTime := some now })) := by
    intro env2
    simp [HuhaTask.finish, hip]
  refine ⟨by rw [hfin], by rw [hfin], rfl, fun env2 => by rw [hfin, hfin], ?_, ?_, ?_⟩
  · rw [hfin, hfin]
    unfold HuhaTask.track
    simp only [Option.getD_some, List.filter_append]
    rw [sendToIntercom_env { env with intercomDefined := false } ⟨env.gtagDefined,
      env.gaDefined, false, env.analyticsDefined⟩ _ rfl]
    rw [sendToGoogleAnalytics_env { env with intercomDefined := false } env _ rfl rfl]
    rw [sendToSegment_env { env with intercomDefined := false } env _ rfl]
    congr 1
    · congr 1
      · rw [List.filter_eq_self.2]
        intro c hc
        rcases (by split at hc <;> simp_all : c ∈
          HuhaTask.sendToGoogleAnalytics env { t with status := st, endTime := some now })
          with hc2
        simp [backend_of_sendToGoogleAnalytics env _ c hc2]
      · split
        · rw [List.filter_eq_nil_iff.2]
          · simp [HuhaTask.sendToIntercom]
          · intro c hc
            simp [backend_of_sendToIntercom env _ c hc]
        · simp
    · rw [List.filter_eq_self.2]
      intro c hc
      rcases (by split at hc <;> simp_all : c ∈
        HuhaTask.sendToSegment env { t with status := st, endTime := some now })
        with hc2
      simp [backend_of_sendToSegment env _ c hc2]
  · rw [hfin, hfin]
    unfold HuhaTask.track
    simp only [Option.getD_some, List.filter_append]
    rw [sendToSegment_env { env with analyticsDefined := false } ⟨env.gtagDefined,
      env.gaDefined, env.intercomDefined, false⟩ _ rfl]
    rw [sendToGoogleAnalytics_env { env with analyticsDefined := false } env _ rfl rfl]
    rw [sendToIntercom_env { env with analyticsDefined := false } env _ rfl]
    congr 1
    · congr 1
      · rw [List.filter_eq_self.2]
        intro c hc
        rcases (by split at hc <;> simp_all : c ∈
          HuhaTask.sendToGoogleAnalytics env { t with status := st, endTime := some now })
          with hc2
        simp [backend_of_sendToGoogleAnalytics env _ c hc2]
      · rw [List.filter_eq_self.2]
        intro c hc
        rcases (by split at hc <;> simp_all : c ∈
          HuhaTask.sendToIntercom env { t with status := st, endTime := some now })
          with hc2
        simp [backend_of_sendToIntercom env _ c hc2]
    · split
      · rw [List.filter_eq_nil_iff.2]
        · simp [HuhaTask.sendToSegment]
        · intro c hc
          simp [backend_of_sendToSegment env _ c hc]
      · simp
  · rw [hfin, hfin]
    unfold HuhaTask.track
    simp only [Option.getD_some, List.filter_append]
    rw [sendToGoogleAnalytics_env { env with gtagDefined := false, gaDefined := false }
      ⟨false, false, env.intercomDefined, env.analyticsDefined⟩ _ rfl rfl]
    rw [sendToIntercom_env { env with gtagDefined := false, gaDefined := false } env _ rfl]
    rw [sendToSegment_env { env with gtagDefined := false, gaDefined := false } env _ rfl]
    congr 1
    · congr 1
      · split
        · rw [List.filter_eq_nil_iff.2]
          · simp [HuhaTask.sendToGoogleAnalytics]
          · intro c hc
            simp [backend_of_sendToGoogleAnalytics env _ c hc]
        · simp
      · rw [List.filter_eq_self.2]
        intro c hc
        rcases (by split at hc <;> simp_all : c ∈
          HuhaTask.sendToIntercom env { t with status := st, endTime := some now })
          with hc2
        simp [backend_of_sendToIntercom env _ c hc2]
    · rw [List.filter_eq_self.2]
      intro c hc
      rcases (by split at hc <;> simp_all : c ∈
        HuhaTask.sendToSegment env { t with status := st, endTime := some now })
        with hc2
      simp [backend_of_sendToSegment env _ c hc2]

/-- Witness for C7 at a concrete in-progress task with all three sinks
enabled: the transition sets status/end, and removing the `Intercom` global
drops exactly the Intercom calls. -/
theorem claim_C7_witness :
    (({ name := "T", status := .inProgress, effort := 2, errors := 1, start := 4
        endTime := none, trackOnGoogleAnalytics := true, trackOnIntercom := true
        trackOnSegment := true, parentTask := none } : HuhaTask).finish 10
        ⟨true, true, true, true⟩ .completed).1 =
      { name := "T", status := .completed, effort := 2, errors := 1, start := 4
        endTime := some 10, trackOnGoogleAnalytics := true, trackOnIntercom := true
        trackOnSegment := true, parentTask := none } ∧
    (({ name := "T", status := .inProgress, effort := 2, errors := 1, start := 4
        endTime := none, trackOnGoogleAnalytics := true, trackOnIntercom := true
        trackOnSegment := true, parentTask := none } : HuhaTask).finish 10
        ⟨true, true, false, true⟩ .completed).2.getD [] =
      ((({ name := "T", status := .inProgress, effort := 2, errors := 1, start := 4
           endTime := none, trackOnGoogleAnalytics := true, trackOnIntercom := true
           trackOnSegment := true, parentTask := none } : HuhaTask).finish 10
          ⟨true, true, true, true⟩ .completed).2.getD []).filter
        (fun c => decide (c.backend ≠ .intercom)) :=
  ⟨(claim_C7 _ .completed 10 ⟨true, true, true, true⟩ rfl).1,
   (claim_C7 _ .completed 10 ⟨true, true, true, true⟩ rfl).2.2.2.2.1⟩

/-- C9: every `Huha` / `HuhaTask` / `HuhaEvent` construction with an options
object permanently replaces the module-level `DEFAULTS` by the merge
(`Object.assign` mutates its target), so a later construction that omits its
options inherits the most recently merged flags; concretely, after one
construction with `{GA: true, Intercom: true, Segment: false}` a plain
construction no longer sees the original defaults
`{GA: false, Intercom: false, Segment: true}`. -/
theorem claim_C9 :
    (∀ (d : Defaults) (o : Options) (name : String) (p : Option Nat) (now : Int),
      (newHuhaTask d name p o now).2 = mergeDefaults d o) ∧
    (∀ (d : Defaults) (g : Nat) (n ob ac se va : String) (tk eg : Option String)
      (o : Options),
      (newHuhaEvent d g n ob ac se va tk eg o).2.1 = mergeDefaults d o) ∧
    (∀ (d : Defaults) (o : Options), (newHuha d o).2 = mergeDefaults d o) ∧
    (∀ (d : Defaults) (o : Options) (name name2 : String) (p p2 : Option Nat)
      (now now2 : Int),
      (newHuhaTask (newHuhaTask d name p o now).2 name2 p2
          ⟨none, none, none⟩ now2).1.trackOnGoogleAnalytics
        = (mergeDefaults d o).trackOnGoogleAnalytics ∧
      (newHuhaTask (newHuhaTask d name p o now).2 name2 p2
          ⟨none, none, none⟩ now2).1.trackOnIntercom
        = (mergeDefaults d o).trackOnIntercom ∧
      (newHuhaTask (newHuhaTask d name p o now).2 name2 p2
          ⟨none, none, none⟩ now2).1.trackOnSegment
        = (mergeDefaults d o).trackOnSegment) ∧
    ((newHuhaTask (newHuhaTask DEFAULTS "a" none
        ⟨some true, some true, some false⟩ 0).2 "b" none
        ⟨none, none, none⟩ 0).1.trackOnGoogleAnalytics = true ∧
      DEFAULTS.trackOnGoogleAnalytics = false ∧
      (newHuhaTask (newHuhaTask DEFAULTS "a" none
        ⟨some true, some true, some false⟩ 0).2 "b" none
        ⟨none, none, none⟩ 0).1.trackOnSegment = false ∧
      DEFAULTS.trackOnSegment = true) := by
  refine ⟨fun d o name p now => rfl, fun d g n ob ac se va tk eg o => rfl,
    fun d o => rfl, fun d o name name2 p p2 now now2 => ?_, by decide⟩
  refine ⟨?_, ?_, ?_⟩ <;> simp [newHuhaTask, mergeDefaults]

/-- Every call emitted by the event's Google Analytics forwarder targets the
Google Analytics backend. -/
theorem backend_of_eventSendToGoogleAnalytics (env : Env) (e : HuhaEvent) :
    ∀ c ∈ e.sendToGoogleAnalytics env, c.backend = .googleAnalytics := by
  unfold HuhaEvent.sendToGoogleAnalytics
  split_ifs <;> simp [SinkCall.backend]

/-- Every call emitted by the event's Segment forwarder targets Segment. -/
theorem backend_of_eventSendToSegment (env : Env) (e : HuhaEvent) :
    ∀ c ∈ e.sendToSegment env, c.backend = .segment := by
  unfold HuhaEvent.sendToSegment
  split_ifs <;> simp [SinkCall.backend]

/-- C10: event dispatch never reaches the Intercom backend — no emitted call
targets Intercom, the result is insensitive to whether the `Intercom` global
is defined, and a `trackOnIntercom` option passed at event construction does
not change the constructed event at all. -/
theorem claim_C10 :
    (∀ (e : HuhaEvent) (env : Env),
      (e.track env).filter (fun c => decide (c.backend = .intercom)) = []) ∧
    (∀ (e : HuhaEvent) (env : Env) (b : Bool),
      e.track { env with intercomDefined := b } = e.track env) ∧
    (∀ (d : Defaults) (g : Nat) (n ob ac se va : String) (tk eg : Option String)
      (o : Options) (b : Option Bool),
      (newHuhaEvent d g n ob ac se va tk eg
        { o with trackOnIntercom := b }).1 = (newHuhaEvent d g n ob ac se va tk eg o).1) := by
  refine ⟨fun e env => ?_, fun e env b => ?_, fun d g n ob ac se va tk eg o b => ?_⟩
  · unfold HuhaEvent.track
    rw [List.filter_append]
    rw [List.filter_eq_nil_iff.2, List.filter_eq_nil_iff.2, List.append_nil]
    · intro c hc
      have hc2 : c ∈ e.sendToSegment env := by
        split at hc
        · exact hc
        · simp at hc
      simp [backend_of_eventSendToSegment env e c hc2]
    · intro c hc
      have hc2 : c ∈ e.sendToGoogleAnalytics env := by
        split at hc
        · exact hc
        · simp at hc
      simp [backend_of_eventSendToGoogleAnalytics env e c hc2]
  · unfold HuhaEvent.track HuhaEvent.sendToGoogleAnalytics HuhaEvent.sendToSegment
    rfl
  · simp [newHuhaEvent, mergeDefaults]

/-- C8 counterexample: the claim "an Event constructed with a supplied
`eventGroup` keeps the caller's value" is false for the supplied value `""`:
`eventGroup || uuidv1()` treats the empty string as falsy and replaces it by
a generated token. -/
theorem claim_C8_counterexample :
    (newHuhaEvent DEFAULTS 0 "e" "o" "a" "s" "v" none (some "")
      ⟨none, none, none⟩).1.eventGroup ≠ "" := by
  decide

/-- C5: `registerEvent` with a captured trigger that differs from the
element's declared trigger leaves the registry, the `DEFAULTS` state and the
sink log entirely unchanged; and when the triggers match but no in-progress
task with the declared name exists, the `complete`/`abandon`/`interaction`/
`error` operations are silent no-ops. -/
theorem claim_C5 (h : Huha) (d : Defaults) (captured : String) (el : Element)
    (now : Int) (env : Env) :
    (captured ≠ el.huhaTrigger →
      h.registerEvent d captured el now env = (h, d, [])) ∧
    (captured = el.huhaTrigger →
      el.huhaEvent ∈ (["complete", "abandon", "interaction", "error"] : List String) →
      h.getTask el.huhaTask = none →
      h.registerEvent d captured el now env = (h, d, [])) := by
  constructor
  · intro hne
    simp [Huha.registerEvent, hne]
  · intro heq hmem hnone
    have hmem2 : el.huhaEvent = "complete" ∨ el.huhaEvent = "abandon" ∨
        el.huhaEvent = "interaction" ∨ el.huhaEvent = "error" := by
      simpa using hmem
    rcases hmem2 with he | he | he | he <;>
      simp [Huha.registerEvent, heq, he, hnone]

/-- Witness for C5 at concrete inputs: a `click` captured against a declared
`focus` trigger does nothing, and a matching `click` whose `complete`
operation names a task that is not in progress does nothing. -/
theorem claim_C5_witness :
    Huha.registerEvent
      { tasks := [], events := [], trackOnGoogleAnalytics := false
        trackOnIntercom := false, trackOnSegment := true } DEFAULTS "click"
      { huhaTask := "X", huhaTrigger := "focus", huhaEvent := "start" } 7
      ⟨true, true, true, true⟩ =
      ({ tasks := [], events := [], trackOnGoogleAnalytics := false
         trackOnIntercom := false, trackOnSegment := true }, DEFAULTS, []) ∧
    Huha.registerEvent
      { tasks := [], events := [], trackOnGoogleAnalytics := false
        trackOnIntercom := false, trackOnSegment := true } DEFAULTS "click"
      { huhaTask := "X", huhaTrigger := "click", huhaEvent := "complete" } 7
      ⟨true, true, true, true⟩ =
      ({ tasks := [], events := [], trackOnGoogleAnalytics := false
         trackOnIntercom := false, trackOnSegment := true }, DEFAULTS, []) :=
  ⟨(claim_C5 _ DEFAULTS "click"
      { huhaTask := "X", huhaTrigger := "focus", huhaEvent := "start" } 7
      ⟨true, true, true, true⟩).1 (by decide),
   (claim_C5 _ DEFAULTS "click"
      { huhaTask := "X", huhaTrigger := "click", huhaEvent := "complete" } 7
      ⟨true, true, true, true⟩).2 rfl (by decide) rfl⟩

/-- Counter propagation never changes the number of stored tasks. -/
theorem propagateAt_length (f : HuhaTask → HuhaTask) :
    ∀ (i : Nat) (ts : List HuhaTask), (propagateAt f ts i).length = ts.length := by
  intro i
  induction i using Nat.strong_induction_on with
  | _ i ih =>
    intro ts
    rw [propagateAt]
    cases hts : ts[i]? with
    | none => rfl
    | some t =>
      cases hpt : t.parentTask with
      | none => simp only [hpt]; simp
      | some j =>
        simp only [hpt]
        by_cases hj : j < i
        · rw [dif_pos hj, ih j hj]
          simp
        · rw [dif_neg hj]
          simp

/-- Every index in a task's parent chain is at most the task's own index. -/
theorem mem_chainFrom_le :
    ∀ (i : Nat) (ts : List HuhaTask) (k : Nat), k ∈ chainFrom ts i → k ≤ i := by
  intro i
  induction i using Nat.strong_induction_on with
  | _ i ih =>
    intro ts k hk
    rw [chainFrom] at hk
    cases hts : ts[i]? with
    | none => simp only [hts] at hk; simp at hk
    | some t =>
      simp only [hts] at hk
      rcases List.mem_cons.1 hk with h | h
      · exact h.le
      · cases hpt : t.parentTask with
        | none => simp only [hpt] at h; simp at h
        | some j =>
          simp only [hpt] at h
          by_cases hj : j < i
          · rw [dif_pos hj] at h
            exact (ih j hj ts k h).trans hj.le
          · rw [dif_neg hj] at h
            simp at h

/-- The parent chain only depends on which indices are populated and on the
stored `parentTask` references. -/
theorem chainFrom_congr :
    ∀ (i : Nat) (ts ts2 : List HuhaTask),
      (∀ k : Nat, (ts[k]?).map HuhaTask.parentTask =
        (ts2[k]?).map HuhaTask.parentTask) →
      chainFrom ts i = chainFrom ts2 i := by
  intro i
  induction i using Nat.strong_induction_on with
  | _ i ih =>
    intro ts ts2 hsh
    have hi := hsh i
    rw [chainFrom, chainFrom]
    cases hts : ts[i]? with
    | none =>
      cases hts2 : ts2[i]? with
      | none => rfl
      | some t2 => rw [hts, hts2] at hi; simp at hi
    | some t =>
      cases hts2 : ts2[i]? with
      | none => rw [hts, hts2] at hi; simp at hi
      | some t2 =>
        rw [hts, hts2] at hi
        have hpt : t.parentTask = t2.parentTask := by
          simpa using hi
        simp only [hts, hts2]
        congr 1
        rw [← hpt]
        cases hpc : t.parentTask with
        | none => rfl
        | some j =>
          show (if _ : j < i then chainFrom ts j else []) =
            (if _ : j < i then chainFrom ts2 j else [])
          by_cases hj : j < i
          · rw [dif_pos hj, dif_pos hj]
            exact ih j hj ts ts2 hsh
          · rw [dif_neg hj, dif_neg hj]

/-- Setting index `i` to `f t` (where `t` is the current entry and `f` keeps
the parent reference) does not change the populated/parent shape. -/
theorem set_shape (f : HuhaTask → HuhaTask)
    (hf : ∀ t, (f t).parentTask = t.parentTask) (ts : List HuhaTask) (i : Nat)
    (t : HuhaTask) (hts : ts[i]? = some t) :
    ∀ k : Nat, ((ts.set i (f t))[k]?).map HuhaTask.parentTask =
      (ts[k]?).map HuhaTask.parentTask := by
  intro k
  by_cases hk : i = k
  · subst hk
    have hilen : i < ts.length := (List.getElem?_eq_some_iff.mp hts).1
    rw [List.getElem?_set_self (by simpa using hilen), hts]
    simp [hf]
  · rw [List.getElem?_set_ne hk]

/-- The elementwise effect of one `addInteraction`/`addError` call at index
`i`: exactly the entries on the parent chain of `i` get updated by `f`, each
once; every other entry is untouched. -/
theorem propagateAt_getElem? (f : HuhaTask → HuhaTask)
    (hf : ∀ t, (f t).parentTask = t.parentTask) :
    ∀ (i : Nat) (ts : List HuhaTask) (k : Nat),
      (propagateAt f ts i)[k]? =
        (ts[k]?).map (fun t => if k ∈ chainFrom ts i then f t else t) := by
  intro i
  induction i using Nat.strong_induction_on with
  | _ i ih =>
    intro ts k
    rw [propagateAt, chainFrom]
    cases hts : ts[i]? with
    | none => simp
    | some t =>
      have hilen : i < ts.length := (List.getElem?_eq_some_iff.mp hts).1
      cases hpt : t.parentTask with
      | none =>
        simp only [hpt]
        by_cases hk : k = i
        · subst hk
          rw [List.getElem?_set_self (by simpa using hilen), hts]
          simp
        · rw [List.getElem?_set_ne fun h => hk h.symm]
          simp [hk]
      | some j =>
        simp only [hpt]
        by_cases hj : j < i
        · rw [dif_pos hj, dif_pos hj]
          rw [ih j hj (ts.set i (f t)) k]
          rw [chainFrom_congr j (ts.set i (f t)) ts (set_shape f hf ts i t hts)]
          by_cases hk : k = i
          · subst hk
            have hnotm : k ∉ chainFrom ts j := fun hm =>
              absurd (mem_chainFrom_le j ts k hm) (by omega)
            rw [List.getElem?_set_self (by simpa using hilen), hts]
            simp [hnotm]
          · rw [List.getElem?_set_ne fun h => hk h.symm]
            simp [hk]
        · rw [dif_neg hj, dif_neg hj]
          by_cases hk : k = i
          · subst hk
            rw [List.getElem?_set_self (by simpa using hilen), hts]
            simp
          · rw [List.getElem?_set_ne fun h => hk h.symm]
            simp [hk]

/-- Elementwise effect of one `addInteraction()` call: `effort + 1` on the
task and every ancestor, nothing else changed. -/
theorem addInteractionAt_getElem? (ts : List HuhaTask) (i k : Nat) :
    (addInteractionAt ts i)[k]? =
      (ts[k]?).map (fun t =>
        if k ∈ chainFrom ts i then { t with effort := t.effort + 1 } else t) :=
  propagateAt_getElem? (fun t => { t with effort := t.effort + 1 }) (fun _ => rfl) i ts k

/-- Elementwise effect of one `addError()` call: `errors + 1` on the task
and every ancestor, nothing else changed. -/
theorem addErrorAt_getElem? (ts : List HuhaTask) (i k : Nat) :
    (addErrorAt ts i)[k]? =
      (ts[k]?).map (fun t =>
        if k ∈ chainFrom ts i then { t with errors := t.errors + 1 } else t) :=
  propagateAt_getElem? (fun t => { t with errors := t.errors + 1 }) (fun _ => rfl) i ts k

/-- Counter propagation does not change the populated/parent shape of the
store. -/
theorem propagateAt_parentTask_map (f : HuhaTask → HuhaTask)
    (hf : ∀ t, (f t).parentTask = t.parentTask) (ts : List HuhaTask) (i k : Nat) :
    ((propagateAt f ts i)[k]?).map HuhaTask.parentTask =
      (ts[k]?).map HuhaTask.parentTask := by
  rw [propagateAt_getElem? f hf]
  cases ts[k]? with
  | none => rfl
  | some t =>
    show some ((if k ∈ chainFrom ts i then f t else t).parentTask) = some t.parentTask
    split
    · simp [hf]
    · rfl

/-- Parent chains are stable under counter propagation. -/
theorem chainFrom_propagateAt (f : HuhaTask → HuhaTask)
    (hf : ∀ t, (f t).parentTask = t.parentTask) (ts : List HuhaTask) (i m : Nat) :
    chainFrom (propagateAt f ts i) m = chainFrom ts m :=
  chainFrom_congr m _ ts (propagateAt_parentTask_map f hf ts i)

/-- C2: over any sequence of `addInteraction()` / `addError()` calls on any
tasks of the store, the `effort` (resp. `errors`) counter of the task at
index `k` grows by exactly the number of `addInteraction` (resp. `addError`)
calls made on a task whose parent chain contains `k` — i.e. on `k` itself or
any of its descendants — and nothing else about the task changes (in
particular the increments happen regardless of anyone's status, terminal or
not). -/
theorem claim_C2 (ops : List (TaskOp × Nat)) :
    ∀ (ts : List HuhaTask) (k : Nat) (t : HuhaTask), ts[k]? = some t →
      (applyOps ts ops)[k]? = some
        { t with
          effort := t.effort + ops.countP (fun p =>
            decide (p.1 = TaskOp.interaction) && decide (k ∈ chainFrom ts p.2))
          errors := t.errors + ops.countP (fun p =>
            decide (p.1 = TaskOp.error) && decide (k ∈ chainFrom ts p.2)) } := by
  induction ops with
  | nil =>
    intro ts k t hk
    simpa [applyOps] using hk
  | cons p ops ih =>
    intro ts k t hk
    obtain ⟨op, d⟩ := p
    cases op
    · have hcons : applyOps ts ((TaskOp.interaction, d) :: ops) =
          applyOps (addInteractionAt ts d) ops := rfl
      have hk2 : (addInteractionAt ts d)[k]? = some
          (if k ∈ chainFrom ts d then { t with effort := t.effort + 1 } else t) := by
        rw [addInteractionAt_getElem?, hk]
        rfl
      have hchain : ∀ x : Nat, chainFrom (addInteractionAt ts d) x = chainFrom ts x :=
        fun x => chainFrom_propagateAt (fun t => { t with effort := t.effort + 1 })
          (fun _ => rfl) ts d x
      have hih := ih (addInteractionAt ts d) k _ hk2
      rw [hcons, hih]
      have hcntI : (ops.countP (fun p =>
          decide (p.1 = TaskOp.interaction) &&
            decide (k ∈ chainFrom (addInteractionAt ts d) p.2))) =
          ops.countP (fun p =>
            decide (p.1 = TaskOp.interaction) && decide (k ∈ chainFrom ts p.2)) := by
        congr 1
        funext p
        rw [hchain]
      have hcntE : (ops.countP (fun p =>
          decide (p.1 = TaskOp.error) &&
            decide (k ∈ chainFrom (addInteractionAt ts d) p.2))) =
          ops.countP (fun p =>
            decide (p.1 = TaskOp.error) && decide (k ∈ chainFrom ts p.2)) := by
        congr 1
        funext p
        rw [hchain]
      rw [hcntI, hcntE]
      by_cases hmem : k ∈ chainFrom ts d
      · simp [hmem, List.countP_cons]
        omega
      · simp [hmem, List.countP_cons]
    · have hcons : applyOps ts ((TaskOp.error, d) :: ops) =
          applyOps (addErrorAt ts d) ops := rfl
      have hk2 : (addErrorAt ts d)[k]? = some
          (if k ∈ chainFrom ts d then { t with errors := t.errors + 1 } else t) := by
        rw [addErrorAt_getElem?, hk]
        rfl
      have hchain : ∀ x : Nat, chainFrom (addErrorAt ts d) x = chainFrom ts x :=
        fun x => chainFrom_propagateAt (fun t => { t with errors := t.errors + 1 })
          (fun _ => rfl) ts d x
      have hih := ih (addErrorAt ts d) k _ hk2
      rw [hcons, hih]
      have hcntI : (ops.countP (fun p =>
          decide (p.1 = TaskOp.interaction) &&
            decide (k ∈ chainFrom (addErrorAt ts d) p.2))) =
          ops.countP (fun p =>
            decide (p.1 = TaskOp.interaction) && decide (k ∈ chainFrom ts p.2)) := by
        congr 1
        funext p
        rw [hchain]
      have hcntE : (ops.countP (fun p =>
          decide (p.1 = TaskOp.error) &&
            decide (k ∈ chainFrom (addErrorAt ts d) p.2))) =
          ops.countP (fun p =>
            decide (p.1 = TaskOp.error) && decide (k ∈ chainFrom ts p.2)) := by
        congr 1
        funext p
        rw [hchain]
      rw [hcntI, hcntE]
      by_cases hmem : k ∈ chainFrom ts d
      · simp [hmem, List.countP_cons]
        omega
      · simp [hmem, List.countP_cons]

/-- Witness for C2 at the concrete three-task chain (with the grandparent
already terminal): two `addInteraction` calls on descendants and one
`addError` on the grandchild give the terminal ancestor `effort = 2`,
`errors = 1`. -/
theorem claim_C2_witness :
    (applyOps [sampleParent, sampleChild, sampleGrandchild]
      [(TaskOp.interaction, 2), (TaskOp.interaction, 1), (TaskOp.error, 2)])[0]? =
      some { sampleParent with effort := 2, errors := 1 } := by
  have h := claim_C2
    [(TaskOp.interaction, 2), (TaskOp.interaction, 1), (TaskOp.error, 2)]
    [sampleParent, sampleChild, sampleGrandchild] 0 sampleParent rfl
  have c2 : chainFrom [sampleParent, sampleChild, sampleGrandchild] 2 = [2, 1, 0] := by
    rw [chainFrom]
    simp [sampleGrandchild]
    rw [chainFrom]
    simp [sampleChild]
    rw [chainFrom]
    simp [sampleParent]
  have c1 : chainFrom [sampleParent, sampleChild, sampleGrandchild] 1 = [1, 0] := by
    rw [chainFrom]
    simp [sampleChild]
    rw [chainFrom]
    simp [sampleParent]
  rw [h]
  simp only [List.countP_cons, List.countP_nil, c2, c1]
  decide

/-- Elementwise effect of abandoning the tasks at a list of indices: an
entry is turned into its abandoned version iff its index occurs in the list
and it is still in progress; every other entry (in particular every already
terminal task) is untouched. -/
theorem abandonSweep_getElem? (env : Env) (now : Int) :
    ∀ (is : List Nat) (ts : List HuhaTask) (k : Nat),
      (abandonSweep env now ts is).1[k]? =
        (ts[k]?).map (fun t =>
          if k ∈ is ∧ t.status = .inProgress
          then { t with endTime := some now, status := .abandoned } else t) := by
  intro is
  induction is with
  | nil =>
    intro ts k
    cases hk : ts[k]? <;> simp [abandonSweep, hk]
  | cons i rest ih =>
    intro ts k
    show (abandonSweep env now (finishAt ts i .abandoned now env).1 rest).1[k]? = _
    rw [ih]
    cases hts : ts[i]? with
    | none =>
      have hfin : finishAt ts i .abandoned now env = (ts, none) := by
        simp only [finishAt, hts]
      rw [hfin]
      cases hk : ts[k]? with
      | none => rfl
      | some u =>
        have hki : k ≠ i := fun he => by rw [he, hts] at hk; exact Option.noConfusion hk
        simp [hki]
    | some t =>
      by_cases hip : t.status = .inProgress
      · have hfin : finishAt ts i .abandoned now env =
            (ts.set i { t with endTime := some now, status := .abandoned },
              some (HuhaTask.track env
                { t with endTime := some now, status := .abandoned })) := by
          simp only [finishAt, hts, HuhaTask.finish, if_pos hip]
        rw [hfin]
        by_cases hk : k = i
        · subst hk
          have hklen : k < ts.length := (List.getElem?_eq_some_iff.mp hts).1
          rw [List.getElem?_set_self (by simpa using hklen), hts]
          simp [hip]
        · rw [List.getElem?_set_ne fun he => hk he.symm]
          cases hcur : ts[k]? with
          | none => rfl
          | some u => simp [hk]
      · have hfin : finishAt ts i .abandoned now env = (ts.set i t, none) := by
          simp only [finishAt, hts, HuhaTask.finish, if_neg hip]
        rw [hfin]
        by_cases hk : k = i
        · subst hk
          have hklen : k < ts.length := (List.getElem?_eq_some_iff.mp hts).1
          rw [List.getElem?_set_self (by simpa using hklen), hts]
          simp [hip]
        · rw [List.getElem?_set_ne fun he => hk he.symm]
          cases hcur : ts[k]? with
          | none => rfl
          | some u => simp [hk]

/-- When every listed index holds an in-progress task and the indices are
distinct, every abandon call in the sweep fires its terminal transition:
exactly one dispatch per listed task. -/
theorem abandonSweep_count (env : Env) (now : Int) :
    ∀ (is : List Nat) (ts : List HuhaTask),
      (∀ i ∈ is, ∃ t, ts[i]? = some t ∧ t.status = .inProgress) → is.Nodup →
      (abandonSweep env now ts is).2.2 = is.length := by
  intro is
  induction is with
  | nil => intro ts _ _; rfl
  | cons i rest ih =>
    intro ts hall hnd
    obtain ⟨t, hts, hip⟩ := hall i (List.mem_cons_self i rest)
    have hfin : finishAt ts i .abandoned now env =
        (ts.set i { t with endTime := some now, status := .abandoned },
          some (HuhaTask.track env { t with endTime := some now, status := .abandoned })) := by
      simp only [finishAt, hts, HuhaTask.finish, if_pos hip]
    have hrest : ∀ j ∈ rest, ∃ u,
        (ts.set i { t with endTime := some now, status := .abandoned })[j]? = some u ∧
        u.status = .inProgress := by
      intro j hj
      obtain ⟨u, hu, hipu⟩ := hall j (List.mem_cons_of_mem i hj)
      have hji : i ≠ j := fun he => (List.nodup_cons.mp hnd).1 (he ▸ hj)
      exact ⟨u, by rw [List.getElem?_set_ne hji]; exact hu, hipu⟩
    have hih := ih (ts.set i { t with endTime := some now, status := .abandoned }) hrest
      (List.nodup_cons.mp hnd).2
    show ((if (finishAt ts i .abandoned now env).2.isSome then 1 else 0) +
        (abandonSweep env now (finishAt ts i .abandoned now env).1 rest).2.2) = _
    rw [hfin]
    show (if (Option.isSome (some (HuhaTask.track env
        { t with endTime := some now, status := .abandoned }))) then 1 else 0) +
        (abandonSweep env now
          (ts.set i { t with endTime := some now, status := .abandoned }) rest).2.2 =
        (i :: rest).length
    rw [hih]
    simp [Nat.add_comm]

/-- Index membership in the in-progress filter. -/
theorem mem_pendingIdx (ts : List HuhaTask) (k : Nat) :
    k ∈ pendingIdx ts ↔ ∃ t, ts[k]? = some t ∧ t.status = .inProgress := by
  unfold pendingIdx
  rw [List.mem_filter, List.mem_range]
  constructor
  · rintro ⟨hlt, hp⟩
    cases hts : ts[k]? with
    | none => rw [hts] at hp; simp at hp
    | some t =>
      rw [hts] at hp
      simp only [decide_eq_true_eq] at hp
      exact ⟨t, rfl, hp⟩
  · rintro ⟨t, hts, hip⟩
    refine ⟨(List.getElem?_eq_some_iff.mp hts).1, ?_⟩
    rw [hts]
    simp [hip]

/-- The in-progress filter lists distinct indices. -/
theorem pendingIdx_nodup (ts : List HuhaTask) : (pendingIdx ts).Nodup :=
  (List.nodup_range _).filter _

/-- C6: `abandonInProgressTasks()` turns every in-progress task into an
abandoned one, firing the terminal dispatch exactly once per such task
(`.2.2` counts the fired transitions and equals the number of in-progress
tasks), leaves every already terminal task untouched, and calling it again
is a complete no-op (same registry, no calls, no dispatch). -/
theorem claim_C6 (h : Huha) (now now2 : Int) (env : Env) :
    (∀ (k : Nat) (t : HuhaTask), h.tasks[k]? = some t →
      (h.abandonInProgressTasks now env).1.tasks[k]? =
        some (if t.status = .inProgress
          then { t with endTime := some now, status := .abandoned } else t)) ∧
    (h.abandonInProgressTasks now env).2.2 = (pendingIdx h.tasks).length ∧
    (h.abandonInProgressTasks now env).1.abandonInProgressTasks now2 env =
      ((h.abandonInProgressTasks now env).1, [], 0) := by
  have htasks : (h.abandonInProgressTasks now env).1.tasks =
      (abandonSweep env now h.tasks (pendingIdx h.tasks)).1 := rfl
  have helem : ∀ (k : Nat) (t : HuhaTask), h.tasks[k]? = some t →
      (h.abandonInProgressTasks now env).1.tasks[k]? =
        some (if t.status = .inProgress
          then { t with endTime := some now, status := .abandoned } else t) := by
    intro k t hk
    rw [htasks, abandonSweep_getElem?, hk]
    by_cases hip : t.status = .inProgress
    · have hmem : k ∈ pendingIdx h.tasks := (mem_pendingIdx h.tasks k).mpr ⟨t, hk, hip⟩
      simp [hip, hmem]
    · simp [hip]
  refine ⟨helem, ?_, ?_⟩
  · show (abandonSweep env now h.tasks (pendingIdx h.tasks)).2.2 = _
    exact abandonSweep_count env now (pendingIdx h.tasks) h.tasks
      (fun i hi => (mem_pendingIdx h.tasks i).mp hi) (pendingIdx_nodup h.tasks)
  · have hnone : pendingIdx (h.abandonInProgressTasks now env).1.tasks = [] := by
      by_contra hne
      obtain ⟨k, hkmem⟩ := List.exists_mem_of_ne_nil _ hne
      obtain ⟨u, hu, hipu⟩ := (mem_pendingIdx _ k).mp hkmem
      rw [htasks, abandonSweep_getElem?] at hu
      cases hk0 : h.tasks[k]? with
      | none => rw [hk0] at hu; exact Option.noConfusion hu
      | some t0 =>
        rw [hk0] at hu
        have hu2 : (if k ∈ pendingIdx h.tasks ∧ t0.status = .inProgress
            then { t0 with endTime := some now, status := .abandoned } else t0) = u := by
          simpa using hu
        by_cases hc : k ∈ pendingIdx h.tasks ∧ t0.status = .inProgress
        · rw [if_pos hc] at hu2
          rw [← hu2] at hipu
          exact Status.noConfusion hipu
        · rw [if_neg hc] at hu2
          have hmem : k ∈ pendingIdx h.tasks :=
            (mem_pendingIdx h.tasks k).mpr ⟨t0, hk0, hu2 ▸ hipu⟩
          exact hc ⟨hmem, hu2 ▸ hipu⟩
    show ({ (h.abandonInProgressTasks now env).1 with tasks :=
        (abandonSweep env now2 (h.abandonInProgressTasks now env).1.tasks
          (pendingIdx (h.abandonInProgressTasks now env).1.tasks)).1 },
      (abandonSweep env now2 (h.abandonInProgressTasks now env).1.tasks
          (pendingIdx (h.abandonInProgressTasks now env).1.tasks)).2.1,
      (abandonSweep env now2 (h.abandonInProgressTasks now env).1.tasks
          (pendingIdx (h.abandonInProgressTasks now env).1.tasks)).2.2) = _
    rw [hnone]
    rfl

/-- Witness for C6 at a concrete registry with two in-progress tasks and one
completed task: the in-progress task at index 0 is abandoned, the completed
task at index 1 is untouched, and exactly two dispatches fire. -/
theorem claim_C6_witness :
    (Huha.abandonInProgressTasks
      { tasks := [sampleChild, sampleParent, sampleGrandchild], events := []
        trackOnGoogleAnalytics := false, trackOnIntercom := false
        trackOnSegment := true } 9 ⟨false, false, false, false⟩).1.tasks[0]? =
      some { sampleChild with endTime := some 9, status := .abandoned } ∧
    (Huha.abandonInProgressTasks
      { tasks := [sampleChild, sampleParent, sampleGrandchild], events := []
        trackOnGoogleAnalytics := false, trackOnIntercom := false
        trackOnSegment := true } 9 ⟨false, false, false, false⟩).1.tasks[1]? =
      some sampleParent ∧
    (Huha.abandonInProgressTasks
      { tasks := [sampleChild, sampleParent, sampleGrandchild], events := []
        trackOnGoogleAnalytics := false, trackOnIntercom := false
        trackOnSegment := true } 9 ⟨false, false, false, false⟩).2.2 = 2 := by
  refine ⟨?_, ?_, ?_⟩
  · have h := (claim_C6
      { tasks := [sampleChild, sampleParent, sampleGrandchild], events := []
        trackOnGoogleAnalytics := false, trackOnIntercom := false
        trackOnSegment := true } 9 10 ⟨false, false, false, false⟩).1 0 sampleChild rfl
    simpa [sampleChild] using h
  · have h := (claim_C6
      { tasks := [sampleChild, sampleParent, sampleGrandchild], events := []
        trackOnGoogleAnalytics := false, trackOnIntercom := false
        trackOnSegment := true } 9 10 ⟨false, false, false, false⟩).1 1 sampleParent rfl
    simpa [sampleParent] using h
  · have h := (claim_C6
      { tasks := [sampleChild, sampleParent, sampleGrandchild], events := []
        trackOnGoogleAnalytics := false, trackOnIntercom := false
        trackOnSegment := true } 9 10 ⟨false, false, false, false⟩).2.1
    rw [h]
    decide

/-- The accumulator of `findInProgress` only offsets the returned index. -/
theorem findInProgress_shift (name : String) :
    ∀ (ts : List HuhaTask) (i : Nat),
      findInProgress name ts i = (findInProgress name ts 0).map (· + i) := by
  intro ts
  induction ts with
  | nil => intro i; rfl
  | cons t ts ih =>
    intro i
    show (if t.name = name ∧ t.status = .inProgress then some i
      else findInProgress name ts (i + 1)) = _
    show _ = (if t.name = name ∧ t.status = .inProgress then some 0
      else findInProgress name ts (0 + 1)).map (· + i)
    by_cases hm : t.name = name ∧ t.status = .inProgress
    · rw [if_pos hm, if_pos hm]
      simp
    · rw [if_neg hm, if_neg hm]
      rw [ih (i + 1), show (0 : Nat) + 1 = 1 from rfl, ih 1, Option.map_map]
      congr 1
      funext x
      simp only [Function.comp_apply]
      omega

/-- Unfolding `find` over a cons cell, with indices counted from `0`. -/
theorem findInProgress_cons (name : String) (t : HuhaTask) (ts : List HuhaTask) :
    findInProgress name (t :: ts) 0 =
      if inProgressNamed name t then some 0
      else (findInProgress name ts 0).map (· + 1) := by
  show (if t.name = name ∧ t.status = .inProgress then some 0
    else findInProgress name ts (0 + 1)) = _
  rw [show (0 : Nat) + 1 = 1 from rfl, findInProgress_shift name ts 1]
  rfl

/-- `find` misses exactly when no element satisfies the predicate. -/
theorem findInProgress_eq_none_iff (name : String) :
    ∀ ts : List HuhaTask,
      findInProgress name ts 0 = none ↔
        ∀ (k : Nat) (t : HuhaTask), ts[k]? = some t → ¬inProgressNamed name t := by
  intro ts
  induction ts with
  | nil => simp [findInProgress]
  | cons t ts ih =>
    rw [findInProgress_cons]
    by_cases hm : inProgressNamed name t
    · rw [if_pos hm]
      simp only [reduceCtorEq, false_iff, not_forall]
      push_neg
      exact ⟨0, t, by simp, hm⟩
    · rw [if_neg hm]
      constructor
      · intro hnone k u hk
        cases k with
        | zero =>
          intro hmu
          have htu : t = u := by simpa using hk
          exact hm (htu ▸ hmu)
        | succ k =>
          have : findInProgress name ts 0 = none := by
            cases hfi : findInProgress name ts 0 with
            | none => rfl
            | some r => rw [hfi] at hnone; exact Option.noConfusion hnone
          exact (ih.mp this) k u (by simpa using hk)
      · intro hall
        have : findInProgress name ts 0 = none :=
          ih.mpr fun k u hk => hall (k + 1) u (by simpa using hk)
        rw [this]
        rfl

/-- `find` returns the first index whose element satisfies the predicate. -/
theorem findInProgress_first (name : String) :
    ∀ (ts : List HuhaTask) (r : Nat) (t : HuhaTask), ts[r]? = some t →
      inProgressNamed name t →
      (∀ (k : Nat) (u : HuhaTask), k < r → ts[k]? = some u → ¬inProgressNamed name u) →
      findInProgress name ts 0 = some r := by
  intro ts
  induction ts with
  | nil => intro r t hr; simp at hr
  | cons hd ts ih =>
    intro r t hr hm hbefore
    rw [findInProgress_cons]
    cases r with
    | zero =>
      have : hd = t := by simpa using hr
      rw [if_pos (this ▸ hm)]
    | succ r =>
      have hnm : ¬inProgressNamed name hd := hbefore 0 hd (Nat.succ_pos r) (by simp)
      rw [if_neg hnm]
      rw [ih r t (by simpa using hr) hm
        (fun k u hk hku => hbefore (k + 1) u (by omega) (by simpa using hku))]
      rfl

/-- A successful `find` returns the index of an element satisfying the
predicate. -/
theorem findInProgress_found (name : String) :
    ∀ (ts : List HuhaTask) (r : Nat), findInProgress name ts 0 = some r →
      ∃ t, ts[r]? = some t ∧ inProgressNamed name t := by
  intro ts
  induction ts with
  | nil => intro r hr; exact Option.noConfusion hr
  | cons hd ts ih =>
    intro r hr
    rw [findInProgress_cons] at hr
    by_cases hm : inProgressNamed name hd
    · rw [if_pos hm] at hr
      have : r = 0 := (Option.some_injective _ hr).symm
      subst this
      exact ⟨hd, by simp, hm⟩
    · rw [if_neg hm] at hr
      cases hfi : findInProgress name ts 0 with
      | none => rw [hfi] at hr; exact Option.noConfusion hr
      | some r2 =>
        rw [hfi] at hr
        have hrr : r2 + 1 = r := Option.some_injective _ hr
        obtain ⟨t, ht, hmt⟩ := ih r2 hfi
        exact ⟨t, by rw [← hrr]; simpa using ht, hmt⟩

/-- Under the per-name invariant, an in-progress element with the right name
is exactly the one `getTask` returns. -/
theorem getTask_some_of_match (h : Huha) (name : String) (k : Nat) (u : HuhaTask)
    (hinv : atMostOneInProgress h name) (hk : h.tasks[k]? = some u)
    (hm : inProgressNamed name u) : h.getTask name = some k := by
  cases hget : h.getTask name with
  | none =>
    exact absurd hm (((findInProgress_eq_none_iff name h.tasks).mp hget) k u hk)
  | some j =>
    obtain ⟨tj, htj, hmj⟩ := findInProgress_found name h.tasks j hget
    rw [hinv j k tj u htj hk hmj hm]

/-- `createTask` when no in-progress task of that name exists: nothing is
abandoned, the new task is appended. -/
theorem createTask_eq_of_none (h : Huha) (d : Defaults) (name : String)
    (p : Option Nat) (now : Int) (env : Env) (hget : h.getTask name = none) :
    h.createTask d name p now env =
      ({ h with tasks := h.tasks ++ [(newHuhaTask d name p
          ⟨some h.trackOnGoogleAnalytics, some h.trackOnIntercom,
            some h.trackOnSegment⟩ now).1] },
        mergeDefaults d ⟨some h.trackOnGoogleAnalytics, some h.trackOnIntercom,
          some h.trackOnSegment⟩,
        h.tasks.length, []) := by
  simp only [Huha.createTask, hget]
  rfl

/-- `createTask` when an in-progress task of that name is found at index
`i`: that task is abandoned (with its dispatch) and the new task is
appended. -/
theorem createTask_eq_of_some (h : Huha) (d : Defaults) (name : String)
    (p : Option Nat) (now : Int) (env : Env) (i : Nat) (t : HuhaTask)
    (hget : h.getTask name = some i) (hi : h.tasks[i]? = some t)
    (hip : t.status = .inProgress) :
    h.createTask d name p now env =
      ({ h with tasks :=
          h.tasks.set i { t with endTime := some now, status := .abandoned } ++
          [(newHuhaTask d name p ⟨some h.trackOnGoogleAnalytics,
            some h.trackOnIntercom, some h.trackOnSegment⟩ now).1] },
        mergeDefaults d ⟨some h.trackOnGoogleAnalytics, some h.trackOnIntercom,
          some h.trackOnSegment⟩,
        h.tasks.length,
        HuhaTask.track env { t with endTime := some now, status := .abandoned }) := by
  simp only [Huha.createTask, hget, finishAt, hi, HuhaTask.finish, if_pos hip,
    List.length_set]
  rfl

/-- Elementwise description of the task store after `createTask`: the new
in-progress task sits at index `length`, the previously found in-progress
task of the same name (if any) is abandoned in place, everything else is
untouched. -/
theorem createTask_tasks_getElem? (h : Huha) (d : Defaults) (name : String)
    (p : Option Nat) (now : Int) (env : Env) (k : Nat) :
    (h.createTask d name p now env).1.tasks[k]? =
      if k = h.tasks.length
      then some (newHuhaTask d name p ⟨some h.trackOnGoogleAnalytics,
        some h.trackOnIntercom, some h.trackOnSegment⟩ now).1
      else (h.tasks[k]?).map (fun t =>
        if h.getTask name = some k
        then { t with endTime := some now, status := .abandoned } else t) := by
  cases hget : h.getTask name with
  | none =>
    rw [createTask_eq_of_none h d name p now env hget]
    by_cases hk : k = h.tasks.length
    · subst hk
      rw [if_pos rfl]
      rw [List.getElem?_append_right (Nat.le_refl _)]
      simp
    · rw [if_neg hk]
      rcases Nat.lt_or_ge k h.tasks.length with hlt | hge
      · rw [List.getElem?_append_left hlt]
        cases hcur : h.tasks[k]? <;> simp
      · have h1 : h.tasks[k]? = none := List.getElem?_eq_none (by omega)
        have h2 : (h.tasks ++ [(newHuhaTask d name p ⟨some h.trackOnGoogleAnalytics,
            some h.trackOnIntercom, some h.trackOnSegment⟩ now).1])[k]? = none :=
          List.getElem?_eq_none (by simp; omega)
        rw [h1, h2]
        rfl
  | some i =>
    obtain ⟨t, hi, hm⟩ := findInProgress_found name h.tasks i hget
    rw [createTask_eq_of_some h d name p now env i t hget hi hm.2]
    by_cases hk : k = h.tasks.length
    · subst hk
      rw [if_pos rfl]
      rw [List.getElem?_append_right (by simp)]
      simp
    · rw [if_neg hk]
      rcases Nat.lt_or_ge k h.tasks.length with hlt | hge
      · rw [List.getElem?_append_left (by simpa using hlt)]
        by_cases hki : k = i
        · subst hki
          rw [List.getElem?_set_self (by simpa using hlt), hi]
          simp
        · rw [List.getElem?_set_ne fun he => hki he.symm]
          have : ¬((some i : Option Nat) = some k) := by
            intro he
            exact hki (Option.some_injective _ he).symm
          cases hcur : h.tasks[k]? <;> simp [this]
      · have h1 : h.tasks[k]? = none := List.getElem?_eq_none (by omega)
        have h2 : (h.tasks.set i { t with endTime := some now, status := .abandoned } ++
            [(newHuhaTask d name p ⟨some h.trackOnGoogleAnalytics,
              some h.trackOnIntercom, some h.trackOnSegment⟩ now).1])[k]? = none :=
          List.getElem?_eq_none (by simp; omega)
        rw [h1, h2]
        rfl

/-- The index returned by `createTask` is the length of the previous task
history. -/
theorem createTask_idx (h : Huha) (d : Defaults) (name : String) (p : Option Nat)
    (now : Int) (env : Env) :
    (h.createTask d name p now env).2.2.1 = h.tasks.length := by
  cases hget : h.getTask name with
  | none => rw [createTask_eq_of_none h d name p now env hget]
  | some i =>
    obtain ⟨t, hi, hm⟩ := findInProgress_found name h.tasks i hget
    rw [createTask_eq_of_some h d name p now env i t hget hi hm.2]

/-- `createTask` grows the task history by exactly one entry. -/
theorem createTask_length (h : Huha) (d : Defaults) (name : String) (p : Option Nat)
    (now : Int) (env : Env) :
    (h.createTask d name p now env).1.tasks.length = h.tasks.length + 1 := by
  cases hget : h.getTask name with
  | none =>
    rw [createTask_eq_of_none h d name p now env hget]
    simp
  | some i =>
    obtain ⟨t, hi, hm⟩ := findInProgress_found name h.tasks i hget
    rw [createTask_eq_of_some h d name p now env i t hget hi hm.2]
    simp

/-- A task that is still in progress after `createTask` (and is not the new
task itself) was already stored, unchanged, before the call. -/
theorem createTask_old_inprogress (h : Huha) (d : Defaults) (name : String)
    (p : Option Nat) (now : Int) (env : Env) (k : Nat) (u : HuhaTask)
    (hk : k ≠ h.tasks.length)
    (hu : (h.createTask d name p now env).1.tasks[k]? = some u)
    (hip : u.status = .inProgress) : h.tasks[k]? = some u := by
  rw [createTask_tasks_getElem?, if_neg hk] at hu
  cases hck : h.tasks[k]? with
  | none => rw [hck] at hu; exact Option.noConfusion hu
  | some t0 =>
    rw [hck] at hu
    have hu2 : (if h.getTask name = some k
        then { t0 with endTime := some now, status := .abandoned } else t0) = u := by
      simpa using hu
    by_cases hg : h.getTask name = some k
    · rw [if_pos hg] at hu2
      rw [← hu2] at hip
      exact absurd hip (by simp)
    · rw [if_neg hg] at hu2
      rw [← hu2]

/-- After `createTask name`, no entry below the new task is an in-progress
task named `name` (assuming the per-name invariant held before). -/
theorem createTask_no_match_below (h : Huha) (d : Defaults) (name : String)
    (p : Option Nat) (now : Int) (env : Env)
    (hinv : atMostOneInProgress h name) :
    ∀ (k : Nat) (u : HuhaTask), k ≠ h.tasks.length →
      (h.createTask d name p now env).1.tasks[k]? = some u →
      ¬inProgressNamed name u := by
  intro k u hk hu hm
  have hold : h.tasks[k]? = some u :=
    createTask_old_inprogress h d name p now env k u hk hu hm.2
  have hg : h.getTask name = some k := getTask_some_of_match h name k u hinv hold hm
  rw [createTask_tasks_getElem?, if_neg hk, hold] at hu
  have hu2 : (if h.getTask name = some k
      then { u with endTime := some now, status := .abandoned } else u) = u := by
    simpa using hu
  rw [if_pos hg] at hu2
  have h3 : Status.abandoned = u.status := by
    simpa using congrArg HuhaTask.status hu2
  rw [hm.2] at h3
  exact Status.noConfusion h3

/-- After `createTask name`, `getTask name` finds exactly the new task (at
the end of the history). -/
theorem getTask_after_create (h : Huha) (d : Defaults) (name : String)
    (p : Option Nat) (now : Int) (env : Env)
    (hinv : atMostOneInProgress h name) :
    (h.createTask d name p now env).1.getTask name = some h.tasks.length := by
  show findInProgress name (h.createTask d name p now env).1.tasks 0 = _
  refine findInProgress_first name _ h.tasks.length
    (newHuhaTask d name p ⟨some h.trackOnGoogleAnalytics, some h.trackOnIntercom,
      some h.trackOnSegment⟩ now).1 ?_ ⟨rfl, rfl⟩ ?_
  · rw [createTask_tasks_getElem?, if_pos rfl]
  · intro k v hklt hkv
    exact createTask_no_match_below h d name p now env hinv k v (by omega) hkv

/-- `createTask` preserves the "at most one in-progress task per name"
invariant, for every name. -/
theorem createTask_preserves_inv (h : Huha) (d : Defaults) (name : String)
    (p : Option Nat) (now : Int) (env : Env)
    (hinv : ∀ n, atMostOneInProgress h n) :
    ∀ n, atMostOneInProgress (h.createTask d name p now env).1 n := by
  intro n k j tk tj hk hj hmk hmj
  by_cases hkl : k = h.tasks.length
  · by_cases hjl : j = h.tasks.length
    · rw [hkl, hjl]
    · exfalso
      rw [createTask_tasks_getElem?, if_pos hkl] at hk
      have hkt : tk = (newHuhaTask d name p ⟨some h.trackOnGoogleAnalytics,
          some h.trackOnIntercom, some h.trackOnSegment⟩ now).1 :=
        (Option.some_injective _ hk).symm
      have hnn : name = n := by rw [hkt] at hmk; exact hmk.1
      subst hnn
      exact createTask_no_match_below h d name p now env (hinv name) j tj hjl hj hmj
  · by_cases hjl : j = h.tasks.length
    · exfalso
      rw [createTask_tasks_getElem?, if_pos hjl] at hj
      have hjt : tj = (newHuhaTask d name p ⟨some h.trackOnGoogleAnalytics,
          some h.trackOnIntercom, some h.trackOnSegment⟩ now).1 :=
        (Option.some_injective _ hj).symm
      have hnn : name = n := by rw [hjt] at hmj; exact hmj.1
      subst hnn
      exact createTask_no_match_below h d name p now env (hinv name) k tk hkl hk hmk
    · exact hinv n k j tk tj
        (createTask_old_inprogress h d name p now env k tk hkl hk hmk.2)
        (createTask_old_inprogress h d name p now env j tj hjl hj hmj.2)
        hmk hmj

/-- The in-progress task that `createTask` found is abandoned in place. -/
theorem createTask_abandons_found (h : Huha) (d : Defaults) (name : String)
    (p : Option Nat) (now : Int) (env : Env) (i : Nat)
    (hg : h.getTask name = some i) :
    ((h.createTask d name p now env).1.tasks[i]?).map HuhaTask.status =
      some Status.abandoned := by
  obtain ⟨t, hi, hm⟩ := findInProgress_found name h.tasks i hg
  have hlt : i < h.tasks.length := (List.getElem?_eq_some_iff.mp hi).1
  rw [createTask_tasks_getElem?, if_neg (by omega), hi]
  simp [hg]

/-- The task appended by `createTask` starts in progress. -/
theorem createTask_new_inprogress (h : Huha) (d : Defaults) (name : String)
    (p : Option Nat) (now : Int) (env : Env) :
    ((h.createTask d name p now env).1.tasks[h.tasks.length]?).map HuhaTask.status =
      some Status.inProgress := by
  rw [createTask_tasks_getElem?, if_pos rfl]
  rfl

/-- C3: calling `createTask name` twice in a row (from any registry state
satisfying the per-name invariant) leaves the first returned task with
status `Abandoned` — its terminal transition having been forced before the
second task is constructed — leaves the second task `InProgress`, and makes
`getTask name` return the second; and each call preserves the invariant
that, for every name, at most one stored task is in progress. -/
theorem claim_C3 (h h1 h2 : Huha) (d d1 d2 : Defaults) (i1 i2 : Nat)
    (c1 c2 : List SinkCall) (env : Env) (name : String) (t1 t2 : Int)
    (hinv : ∀ n, atMostOneInProgress h n)
    (he1 : h.createTask d name none t1 env = (h1, d1, i1, c1))
    (he2 : h1.createTask d1 name none t2 env = (h2, d2, i2, c2)) :
    (h2.tasks[i1]?).map HuhaTask.status = some Status.abandoned ∧
    (h2.tasks[i2]?).map HuhaTask.status = some Status.inProgress ∧
    h2.getTask name = some i2 ∧
    (∀ n, atMostOneInProgress h1 n) ∧
    (∀ n, atMostOneInProgress h2 n) := by
  have hh1 : h1 = (h.createTask d name none t1 env).1 := by rw [he1]
  have hi1 : i1 = h.tasks.length := by rw [← createTask_idx h d name none t1 env, he1]
  have hd1 : d1 = (h.createTask d name none t1 env).2.1 := by rw [he1]
  have hh2 : h2 = (h1.createTask d1 name none t2 env).1 := by rw [he2]
  have hi2 : i2 = h1.tasks.length := by
    rw [← createTask_idx h1 d1 name none t2 env, he2]
  have hinv1 : ∀ n, atMostOneInProgress h1 n := by
    rw [hh1]
    exact createTask_preserves_inv h d name none t1 env hinv
  have hinv2 : ∀ n, atMostOneInProgress h2 n := by
    rw [hh2]
    exact createTask_preserves_inv h1 d1 name none t2 env hinv1
  have hget1 : h1.getTask name = some h.tasks.length := by
    rw [hh1]
    exact getTask_after_create h d name none t1 env (hinv name)
  have hget2 : h2.getTask name = some h1.tasks.length := by
    rw [hh2]
    exact getTask_after_create h1 d1 name none t2 env (hinv1 name)
  refine ⟨?_, ?_, ?_, hinv1, hinv2⟩
  · rw [hh2]
    exact createTask_abandons_found h1 d1 name none t2 env i1
      (by rw [hi1]; exact hget1)
  · rw [hh2, hi2]
    exact createTask_new_inprogress h1 d1 name none t2 env
  · rw [hi2]
    exact hget2

/-- Witness for C3 from the empty registry: after `createTask "X"` twice,
the task at index 0 is abandoned, the task at index 1 is in progress, and
`getTask "X"` returns index 1. -/
theorem claim_C3_witness :
    ((emptyRegistry.createTask DEFAULTS "X" none 10
        ⟨false, false, false, false⟩).1.createTask ⟨false, false, true⟩ "X" none 20
        ⟨false, false, false, false⟩).1.tasks.map HuhaTask.status =
      [Status.abandoned, Status.inProgress] ∧
    ((emptyRegistry.createTask DEFAULTS "X" none 10
        ⟨false, false, false, false⟩).1.createTask ⟨false, false, true⟩ "X" none 20
        ⟨false, false, false, false⟩).1.getTask "X" = some 1 := by
  have hinv0 : ∀ n, atMostOneInProgress emptyRegistry n := by
    intro n i j ti tj hti
    simp [emptyRegistry] at hti
  have h := claim_C3 emptyRegistry
    (emptyRegistry.createTask DEFAULTS "X" none 10 ⟨false, false, false, false⟩).1
    ((emptyRegistry.createTask DEFAULTS "X" none 10
      ⟨false, false, false, false⟩).1.createTask ⟨false, false, true⟩ "X" none 20
      ⟨false, false, false, false⟩).1
    DEFAULTS ⟨false, false, true⟩ ⟨false, false, true⟩ 0 1 [] []
    ⟨false, false, false, false⟩ "X" 10 20 hinv0 rfl rfl
  refine ⟨?_, h.2.2.1⟩
  obtain ⟨ha, hb, _, _, _⟩ := h
  have hlen : ((emptyRegistry.createTask DEFAULTS "X" none 10
      ⟨false, false, false, false⟩).1.createTask ⟨false, false, true⟩ "X" none 20
      ⟨false, false, false, false⟩).1.tasks.length = 2 := rfl
  cases hts : ((emptyRegistry.createTask DEFAULTS "X" none 10
      ⟨false, false, false, false⟩).1.createTask ⟨false, false, true⟩ "X" none 20
      ⟨false, false, false, false⟩).1.tasks with
  | nil => rw [hts] at hlen; simp at hlen
  | cons a l =>
    cases l with
    | nil => rw [hts] at hlen; simp at hlen
    | cons b l2 =>
      cases l2 with
      | cons c l3 => rw [hts] at hlen; simp at hlen
      | nil =>
        rw [hts] at ha hb
        simp only [List.map]
        have ha2 : a.status = Status.abandoned := by simpa using ha
        have hb2 : b.status = Status.inProgress := by simpa using hb
        rw [ha2, hb2]

/-- A generated token is never the empty string. -/
theorem uuidv1_ne_empty (g : Nat) : (uuidv1 g).1 ≠ "" := by
  intro hc
  have := congrArg String.length hc
  simp [uuidv1, String.length] at this

/-- Tokens generated at distinct counter states are distinct. -/
theorem uuidv1_inj (g g2 : Nat) (h : g ≠ g2) : (uuidv1 g).1 ≠ (uuidv1 g2).1 := by
  intro hc
  have h2 : g + 1 = g2 + 1 := by
    simpa [uuidv1, String.length] using congrArg String.length hc
  omega

/-- The `eventGroup` stored by the `HuhaEvent` constructor and the resulting
uuid counter: a fresh token is consumed exactly when the supplied group is
absent or empty. -/
theorem newHuhaEvent_eventGroup (d : Defaults) (g : Nat) (a : EventArgs) :
    (newHuhaEvent d g a.name a.object a.action a.sectionName a.value a.task
      a.eventGroup a.options).1.eventGroup =
      (if consumesToken a then (uuidv1 g).1 else a.eventGroup.getD "") ∧
    (newHuhaEvent d g a.name a.object a.action a.sectionName a.value a.task
      a.eventGroup a.options).2.2 =
      (if consumesToken a then g + 1 else g) := by
  cases heg : a.eventGroup with
  | none =>
    constructor
    · simp [newHuhaEvent, heg, consumesToken]
    · simp [newHuhaEvent, heg, consumesToken, uuidv1]
  | some s =>
    by_cases hs : s = ""
    · constructor
      · simp [newHuhaEvent, heg, consumesToken, hs]
      · simp [newHuhaEvent, heg, consumesToken, hs, uuidv1]
    · constructor
      · simp [newHuhaEvent, heg, consumesToken, hs]
      · simp [newHuhaEvent, heg, consumesToken, hs]

/-- Counting token consumers over a longer history counts at least as
many. -/
theorem countP_take_le (p : EventArgs → Bool) (l : List EventArgs) (n m : Nat)
    (h : n ≤ m) : (l.take n).countP p ≤ (l.take m).countP p := by
  conv_rhs => rw [← List.take_append_drop n (l.take m)]
  rw [List.countP_append, List.take_take, Nat.min_eq_left h]
  exact Nat.le_add_right _ _

/-- A consuming construction strictly advances the count of consumers seen
so far. -/
theorem countP_take_lt (l : List EventArgs) (i j : Nat) (a : EventArgs)
    (hij : i < j) (ha : l[i]? = some a) (hca : consumesToken a = true) :
    (l.take i).countP consumesToken < (l.take j).countP consumesToken := by
  have h1 : (l.take (i + 1)).countP consumesToken =
      (l.take i).countP consumesToken + 1 := by
    rw [List.take_succ, ha, List.countP_append]
    simp [hca]
  have h2 := countP_take_le consumesToken l (i + 1) j (by omega)
  omega

/-- The event constructed at position `i` of a construction sequence: its
`eventGroup` is the token generated at counter `g +` (number of consuming
constructions before `i`) when position `i` consumes a token, and the
caller-supplied group otherwise. -/
theorem mkEventSeq_getElem? :
    ∀ (args : List EventArgs) (d : Defaults) (g : Nat) (i : Nat) (a : EventArgs),
      args[i]? = some a →
      ∃ e, (mkEventSeq d g args).1[i]? = some e ∧
        e.eventGroup = (if consumesToken a
          then (uuidv1 (g + (args.take i).countP consumesToken)).1
          else a.eventGroup.getD "") := by
  intro args
  induction args with
  | nil => intro d g i a ha; simp at ha
  | cons hd rest ih =>
    intro d g i a ha
    have hcons : (mkEventSeq d g (hd :: rest)).1 =
        (newHuhaEvent d g hd.name hd.object hd.action hd.sectionName hd.value
          hd.task hd.eventGroup hd.options).1 ::
        (mkEventSeq
          (newHuhaEvent d g hd.name hd.object hd.action hd.sectionName hd.value
            hd.task hd.eventGroup hd.options).2.1
          (newHuhaEvent d g hd.name hd.object hd.action hd.sectionName hd.value
            hd.task hd.eventGroup hd.options).2.2 rest).1 := rfl
    cases i with
    | zero =>
      have haa : hd = a := by simpa using ha
      subst haa
      refine ⟨(newHuhaEvent d g hd.name hd.object hd.action hd.sectionName
        hd.value hd.task hd.eventGroup hd.options).1, ?_, ?_⟩
      · rw [hcons]
        simp
      · rw [(newHuhaEvent_eventGroup d g hd).1]
        simp
    | succ i2 =>
      obtain ⟨e, he, hge⟩ := ih
        (newHuhaEvent d g hd.name hd.object hd.action hd.sectionName hd.value
          hd.task hd.eventGroup hd.options).2.1
        (newHuhaEvent d g hd.name hd.object hd.action hd.sectionName hd.value
          hd.task hd.eventGroup hd.options).2.2 i2 a (by simpa using ha)

      refine ⟨e, by rw [hcons]; simpa using he, ?_⟩
      rw [hge, (newHuhaEvent_eventGroup d g hd).2]
      by_cases hca : consumesToken a
      · rw [if_pos hca, if_pos hca]
        have harith : (if consumesToken hd then g + 1 else g) +
            (rest.take i2).countP consumesToken =
            g + ((hd :: rest).take (i2 + 1)).countP consumesToken := by
          show _ = g + (hd :: rest.take i2).countP consumesToken
          rw [List.countP_cons]
          cases hch : consumesToken hd
          · simp
          · simp
            omega
        rw [harith]
      · rw [if_neg hca, if_neg hca]

/-- C8 (amended): in any sequence of `HuhaEvent` constructions, every event
constructed without a supplied `eventGroup` — or with the empty string,
which JS treats as falsy — receives a non-empty generated token; the tokens
of two such events at distinct positions are distinct; and an event
constructed with a supplied non-empty `eventGroup` keeps the caller's
value. -/
theorem claim_C8 (d : Defaults) (g : Nat) (args : List EventArgs) (i j : Nat)
    (ai aj : EventArgs) (ei ej : HuhaEvent)
    (hai : args[i]? = some ai) (haj : args[j]? = some aj)
    (hei : (mkEventSeq d g args).1[i]? = some ei)
    (hej : (mkEventSeq d g args).1[j]? = some ej) :
    (consumesToken ai = true → ei.eventGroup ≠ "") ∧
    (i ≠ j → consumesToken ai = true → consumesToken aj = true →
      ei.eventGroup ≠ ej.eventGroup) ∧
    (∀ s, ai.eventGroup = some s → s ≠ "" → ei.eventGroup = s) := by
  obtain ⟨e1, he1, hg1⟩ := mkEventSeq_getElem? args d g i ai hai
  obtain ⟨e2, he2, hg2⟩ := mkEventSeq_getElem? args d g j aj haj
  have hee1 : e1 = ei := Option.some_injective _ (he1.symm.trans hei)
  have hee2 : e2 = ej := Option.some_injective _ (he2.symm.trans hej)
  subst hee1
  subst hee2
  refine ⟨?_, ?_, ?_⟩
  · intro hca
    rw [hg1, if_pos hca]
    exact uuidv1_ne_empty _
  · intro hij hcai hcaj
    rw [hg1, if_pos hcai, hg2, if_pos hcaj]
    rcases Nat.lt_or_ge i j with hlt | hge
    · exact uuidv1_inj _ _
        (by have := countP_take_lt args i j ai hlt hai hcai; omega)
    · have hlt2 : j < i := by omega
      exact uuidv1_inj _ _
        (by have := countP_take_lt args j i aj hlt2 haj hcaj; omega)
  · intro s hs hs0
    have hca : consumesToken ai = false := by
      simp [consumesToken, hs, hs0]
    rw [hg1, if_neg (by simp [hca]), hs]
    rfl

/-- Witness for C8: three concrete constructions — no group, empty-string
group, then the non-empty group `"grp"` — give the distinct non-empty
generated tokens and the kept caller value. -/
theorem claim_C8_witness :
    (mkEventSeq DEFAULTS 0
      [⟨"a", "o", "ac", "s", "v", none, none, ⟨none, none, none⟩⟩,
       ⟨"b", "o", "ac", "s", "v", none, some "", ⟨none, none, none⟩⟩,
       ⟨"c", "o", "ac", "s", "v", none, some "grp", ⟨none, none, none⟩⟩]).1.map
      HuhaEvent.eventGroup = ["u", "uu", "grp"] ∧
    ((mkEventSeq DEFAULTS 0
      [⟨"a", "o", "ac", "s", "v", none, none, ⟨none, none, none⟩⟩,
       ⟨"b", "o", "ac", "s", "v", none, some "", ⟨none, none, none⟩⟩,
       ⟨"c", "o", "ac", "s", "v", none, some "grp", ⟨none, none, none⟩⟩]).1.get
      ⟨0, by decide⟩).eventGroup ≠ "" ∧
    ((mkEventSeq DEFAULTS 0
      [⟨"a", "o", "ac", "s", "v", none, none, ⟨none, none, none⟩⟩,
       ⟨"b", "o", "ac", "s", "v", none, some "", ⟨none, none, none⟩⟩,
       ⟨"c", "o", "ac", "s", "v", none, some "grp", ⟨none, none, none⟩⟩]).1.get
      ⟨0, by decide⟩).eventGroup ≠
    ((mkEventSeq DEFAULTS 0
      [⟨"a", "o", "ac", "s", "v", none, none, ⟨none, none, none⟩⟩,
       ⟨"b", "o", "ac", "s", "v", none, some "", ⟨none, none, none⟩⟩,
       ⟨"c", "o", "ac", "s", "v", none, some "grp", ⟨none, none, none⟩⟩]).1.get
      ⟨1, by decide⟩).eventGroup := by
  have h := claim_C8 DEFAULTS 0
    [⟨"a", "o", "ac", "s", "v", none, none, ⟨none, none, none⟩⟩,
     ⟨"b", "o", "ac", "s", "v", none, some "", ⟨none, none, none⟩⟩,
     ⟨"c", "o", "ac", "s", "v", none, some "grp", ⟨none, none, none⟩⟩] 0 1
    ⟨"a", "o", "ac", "s", "v", none, none, ⟨none, none, none⟩⟩
    ⟨"b", "o", "ac", "s", "v", none, some "", ⟨none, none, none⟩⟩
    ((mkEventSeq DEFAULTS 0
      [⟨"a", "o", "ac", "s", "v", none, none, ⟨none, none, none⟩⟩,
       ⟨"b", "o", "ac", "s", "v", none, some "", ⟨none, none, none⟩⟩,
       ⟨"c", "o", "ac", "s", "v", none, some "grp", ⟨none, none, none⟩⟩]).1.get
      ⟨0, by decide⟩)
    ((mkEventSeq DEFAULTS 0
      [⟨"a", "o", "ac", "s", "v", none, none, ⟨none, none, none⟩⟩,
       ⟨"b", "o", "ac", "s", "v", none, some "", ⟨none, none, none⟩⟩,
       ⟨"c", "o", "ac", "s", "v", none, some "grp", ⟨none, none, none⟩⟩]).1.get
      ⟨1, by decide⟩)
    rfl rfl (by decide) (by decide)
  exact ⟨by decide, h.1 rfl, h.2.1 (by decide) rfl rfl⟩

end HuhaSpec
